import Mathlib

/-!
Verification development for the Aura backend agent runtime.

The definitions below are shallow embeddings of the Python sources under
src/Aura_Backend_RW/src/.  Each definition carries a comment naming the
source function it embeds.  Machine behaviour that is pure (list and string
manipulation, classification, state updates) is translated directly;
external effects (LLM replies, tool results, stop requests) are modelled as
explicit oracle inputs, and broadcasts are modelled as values accumulated in
the state.
-/

namespace Aura

/-! ## Mission log (src/services/mission_log_service.py)

A task dictionary as built by MissionLogService._add_task_internal.
The tool_call payload is opaque to every operation we verify, so it is kept
as an uninterpreted Option String.  The line-number free JSON persistence is
mirrored by the `disk` field of `MLState`: `_save_log_to_disk` copies the
in-memory list there.
-/

structure MLTask where
  id : Nat
  description : String
  done : Bool
  toolCall : Option String
  lastError : Option String
  deriving Repr, DecidableEq

/-- State of MissionLogService: in-memory tasks, the monotone id counter
`_next_task_id`, the stored goal, and the mission_log.json mirror. -/
structure MLState where
  tasks : List MLTask
  nextId : Nat
  goal : String
  disk : List MLTask
  deriving Repr, DecidableEq

/-- Fresh service state (constructor of MissionLogService). -/
def MLState.fresh : MLState := ⟨[], 1, "", []⟩

/-- MissionLogService._save_log_to_disk (the JSON mirror). -/
def MLState.save (s : MLState) : MLState := ⟨s.tasks, s.nextId, s.goal, s.tasks⟩

/-- MissionLogService._add_task_internal: append a task with the next id and
bump the counter.  No save, no notification. -/
def addTaskInternal (s : MLState) (description : String) (toolCall : Option String) : MLState :=
  ⟨s.tasks ++ [⟨s.nextId, description, false, toolCall, none⟩], s.nextId + 1, s.goal, s.disk⟩

/-- Fold of _add_task_internal over a list of plan steps. -/
def addStepsInternal (s : MLState) (steps : List String) : MLState :=
  steps.foldl (fun acc step => addTaskInternal acc step none) s

/-- MissionLogService.add_task.  An empty description raises ValueError
before any mutation, which we model as returning the state unchanged
together with `false`. -/
def addTask (s : MLState) (description : String) (toolCall : Option String) :
    MLState × Bool :=
  if description = "" then (s, false)
  else ((addTaskInternal s description toolCall).save, true)

/-- MissionLogService.mark_task_as_done: set done, clear last_error, save.
Idempotent: an already-done task is left untouched (no save) but the call
still returns True. -/
def markTaskAsDone (s : MLState) (taskId : Nat) : MLState × Bool :=
  match s.tasks.find? (fun t => t.id == taskId) with
  | none => (s, false)
  | some t =>
    if t.done then (s, true)
    else
      (MLState.save
        ⟨s.tasks.map (fun u => if u.id == taskId then ⟨u.id, u.description, true, u.toolCall, none⟩ else u),
         s.nextId, s.goal, s.disk⟩, true)

/-- MissionLogService.delete_task: remove the first task with the given id
(`next(...)` + `list.remove`), save; a missing id changes nothing. -/
def deleteTask (s : MLState) (taskId : Nat) : MLState × Bool :=
  match s.tasks.find? (fun t => t.id == taskId) with
  | none => (s, false)
  | some _ =>
    (MLState.save ⟨s.tasks.eraseP (fun t => t.id == taskId), s.nextId, s.goal, s.disk⟩, true)

/-- Index of the first task with the given id, as in the scan at the top of
MissionLogService.replace_tasks_from_id. -/
def findTaskIdx (ts : List MLTask) (taskId : Nat) : Option Nat :=
  ts.findIdx? (fun t => t.id == taskId)

/-- MissionLogService.replace_tasks_from_id: truncate the list at the index
of `start_task_id` and append the new steps with fresh ids (the counter is
not reset).  An unknown id leaves the state unchanged. -/
def replaceTasksFromId (s : MLState) (startId : Nat) (steps : List String) : MLState :=
  match findTaskIdx s.tasks startId with
  | none => s
  | some idx =>
    (addStepsInternal ⟨s.tasks.take idx, s.nextId, s.goal, s.disk⟩ steps).save

/-- MissionLogService.set_initial_plan: wipe tasks, reset the counter to 1,
store the goal, append the steps, save. -/
def setInitialPlan (s : MLState) (goal : String) (steps : List String) : MLState :=
  (addStepsInternal ⟨[], 1, goal, s.disk⟩ steps).save

/-- The Python dict comprehension task_map = left-to-right insertion, so a
lookup returns the last task carrying the id. -/
def taskMapLookup (ts : List MLTask) (taskId : Nat) : Option MLTask :=
  ts.reverse.find? (fun t => t.id == taskId)

/-- The `len` / `set` guard of MissionLogService.reorder_tasks:
`len(ordered_task_ids) == len(self.tasks)` and
`set(ordered_task_ids) == set(task_map.keys())` (sets compared as mutual
membership). -/
def reorderGuard (ts : List MLTask) (ids : List Nat) : Bool :=
  ids.length == ts.length &&
    ids.all (fun i => ts.any (fun t => t.id == i)) &&
    ts.all (fun t => ids.any (fun i => t.id == i))

/-- MissionLogService.reorder_tasks: on a failed guard, return False without
mutating anything (no save); otherwise rebuild the list in the requested
order, save, and return True. -/
def reorderTasks (s : MLState) (ids : List Nat) : MLState × Bool :=
  if reorderGuard s.tasks ids then
    (MLState.save ⟨ids.filterMap (taskMapLookup s.tasks), s.nextId, s.goal, s.disk⟩, true)
  else (s, false)

/-! ### Operation sequences over the mission log (for the id invariants)

`LogOp` covers the four mutators named by the invariant claim:
add_task, delete_task, replace_tasks_from_id and reorder_tasks.
`applyOpAssigned` additionally reports the ids freshly assigned by the
operation (each one produced by _add_task_internal). -/

inductive LogOp where
  | add (description : String) (toolCall : Option String)
  | del (taskId : Nat)
  | replaceFrom (taskId : Nat) (steps : List String)
  | reorder (ids : List Nat)
  deriving Repr

def applyOp (s : MLState) : LogOp → MLState
  | .add d tc => (addTask s d tc).1
  | .del i => (deleteTask s i).1
  | .replaceFrom i steps => replaceTasksFromId s i steps
  | .reorder ids => (reorderTasks s ids).1

/-- Ids assigned by one operation: `add` assigns the current counter value
(unless the empty-description guard fires), `replace_tasks_from_id` assigns
one fresh id per step when the start id exists, the others assign none. -/
def opAssigned (s : MLState) : LogOp → List Nat
  | .add d _ => if d = "" then [] else [s.nextId]
  | .del _ => []
  | .replaceFrom i steps =>
    match findTaskIdx s.tasks i with
    | none => []
    | some _ => (List.range steps.length).map (fun k => s.nextId + k)
  | .reorder _ => []

/-- Run a sequence of operations, accumulating every freshly assigned id. -/
def runOps (s : MLState) : List LogOp → MLState × List Nat
  | [] => (s, [])
  | op :: ops =>
    let rest := runOps (applyOp s op) ops
    (rest.1, opAssigned s op ++ rest.2)

/-- The id part of a task list. -/
def taskIds (ts : List MLTask) : List Nat := ts.map (·.id)

/-- The inner invariant of the mission log: task ids are pairwise distinct,
every id is below the counter, and the counter is at least 1. -/
def LogInv (s : MLState) : Prop :=
  (taskIds s.tasks).Nodup ∧ (∀ t ∈ s.tasks, t.id < s.nextId) ∧ 1 ≤ s.nextId

/-! ### Helper lemmas about the mission-log embedding -/

lemma taskIds_cons (t : MLTask) (ts : List MLTask) :
    taskIds (t :: ts) = t.id :: taskIds ts := rfl

lemma taskIds_append (ts us : List MLTask) :
    taskIds (ts ++ us) = taskIds ts ++ taskIds us := by
  simp [taskIds]

lemma taskIds_length (ts : List MLTask) : (taskIds ts).length = ts.length := by
  simp [taskIds]

lemma eq_of_id_eq_of_mem {ts : List MLTask} (h : (taskIds ts).Nodup) :
    ∀ a ∈ ts, ∀ b ∈ ts, a.id = b.id → a = b := by
  induction ts with
  | nil => intro a ha; cases ha
  | cons t rest ih =>
    rw [taskIds_cons, List.nodup_cons] at h
    intro a ha b hb heq
    rcases List.mem_cons.mp ha with ha' | ha' <;>
      rcases List.mem_cons.mp hb with hb' | hb'
    · rw [ha', hb']
    · exfalso
      apply h.1
      rw [ha'] at heq
      rw [heq]
      exact List.mem_map_of_mem (·.id) hb'
    · exfalso
      apply h.1
      rw [hb'] at heq
      rw [← heq]
      exact List.mem_map_of_mem (·.id) ha'
    · exact ih h.2 a ha' b hb' heq

lemma taskMapLookup_mem {ts : List MLTask} {i : Nat} {t : MLTask}
    (h : taskMapLookup ts i = some t) : t ∈ ts ∧ t.id = i := by
  have h1 := List.mem_of_find?_eq_some h
  have h2 := List.find?_some h
  refine ⟨List.mem_reverse.mp h1, ?_⟩
  simpa using h2

lemma taskMapLookup_isSome {ts : List MLTask} {i : Nat}
    (h : ∃ t ∈ ts, t.id = i) : (taskMapLookup ts i).isSome := by
  rw [taskMapLookup, List.find?_isSome]
  obtain ⟨t, ht, hid⟩ := h
  exact ⟨t, List.mem_reverse.mpr ht, by simp [hid]⟩

lemma reorderGuard_iff {ts : List MLTask} {ids : List Nat} :
    reorderGuard ts ids = true ↔
      ids.length = ts.length ∧ (∀ i ∈ ids, ∃ t ∈ ts, t.id = i) ∧
        ∀ t ∈ ts, ∃ i ∈ ids, t.id = i := by
  simp only [reorderGuard, Bool.and_eq_true, beq_iff_eq, List.all_eq_true, List.any_eq_true]
  exact ⟨fun h => ⟨h.1.1, h.1.2, h.2⟩, fun h => ⟨⟨h.1, h.2.1⟩, h.2.2⟩⟩

lemma mem_ids_iff_mem_taskIds {ts : List MLTask} {i : Nat} :
    (∃ t ∈ ts, t.id = i) ↔ i ∈ taskIds ts := by
  simp [taskIds, List.mem_map]

lemma ids_nodup_of_guard {ts : List MLTask} {ids : List Nat}
    (hN : (taskIds ts).Nodup) (hg : reorderGuard ts ids = true) : ids.Nodup := by
  obtain ⟨hlen, h1, h2⟩ := reorderGuard_iff.mp hg
  have hmem : ∀ x, x ∈ ids ↔ x ∈ taskIds ts := by
    intro x
    constructor
    · intro hx; exact mem_ids_iff_mem_taskIds.mp (h1 x hx)
    · intro hx
      obtain ⟨t, ht, hid⟩ := mem_ids_iff_mem_taskIds.mpr hx
      obtain ⟨i, hi, hii⟩ := h2 t ht
      rw [← hid, hii]; exact hi
  have hfin : ids.toFinset = (taskIds ts).toFinset := by
    ext x; simp only [List.mem_toFinset]; exact hmem x
  have hc1 : ids.dedup.length = ids.length := by
    have e1 := List.card_toFinset ids
    have e2 := List.card_toFinset (taskIds ts)
    rw [hfin] at e1
    rw [e2] at e1
    rw [List.dedup_eq_self.mpr hN] at e1
    rw [← e1, taskIds_length, hlen]
  have hsub := List.dedup_sublist ids
  have := hsub.eq_of_length hc1
  rw [← this]
  exact List.nodup_dedup ids

lemma reorder_filterMap_taskIds {ts : List MLTask} {ids : List Nat}
    (h : ∀ i ∈ ids, ∃ t ∈ ts, t.id = i) :
    taskIds (ids.filterMap (taskMapLookup ts)) = ids := by
  induction ids with
  | nil => rfl
  | cons i rest ih =>
    have hi := taskMapLookup_isSome (h i (List.mem_cons_self i rest))
    obtain ⟨t, ht⟩ := Option.isSome_iff_exists.mp hi
    rw [List.filterMap_cons, ht, taskIds_cons, (taskMapLookup_mem ht).2]
    rw [ih (fun j hj => h j (List.mem_cons_of_mem i hj))]

lemma guard_of_perm {ts : List MLTask} {ids : List Nat}
    (hp : ids.Perm (taskIds ts)) : reorderGuard ts ids = true := by
  refine reorderGuard_iff.mpr ⟨?_, ?_, ?_⟩
  · rw [hp.length_eq, taskIds_length]
  · intro i hi
    exact mem_ids_iff_mem_taskIds.mpr (hp.subset hi)
  · intro t ht
    have : t.id ∈ taskIds ts := List.mem_map_of_mem (·.id) ht
    exact ⟨t.id, hp.symm.subset this, rfl⟩

lemma perm_of_guard {ts : List MLTask} {ids : List Nat}
    (hN : (taskIds ts).Nodup) (hg : reorderGuard ts ids = true) :
    ids.Perm (taskIds ts) := by
  obtain ⟨hlen, h1, h2⟩ := reorderGuard_iff.mp hg
  have hid := ids_nodup_of_guard hN hg
  refine (List.perm_ext_iff_of_nodup hid hN).mpr ?_
  intro x
  constructor
  · intro hx; exact mem_ids_iff_mem_taskIds.mp (h1 x hx)
  · intro hx
    obtain ⟨t, ht, hidx⟩ := mem_ids_iff_mem_taskIds.mpr hx
    obtain ⟨i, hi, hii⟩ := h2 t ht
    rw [← hidx, hii]; exact hi

lemma reorder_result_perm {ts : List MLTask} {ids : List Nat}
    (hN : (taskIds ts).Nodup) (hg : reorderGuard ts ids = true) :
    (ids.filterMap (taskMapLookup ts)).Perm ts := by
  obtain ⟨hlen, h1, h2⟩ := reorderGuard_iff.mp hg
  have hid := ids_nodup_of_guard hN hg
  have htask : ts.Nodup := List.Nodup.of_map (·.id) (show (ts.map (·.id)).Nodup from hN)
  have hids' : taskIds (ids.filterMap (taskMapLookup ts)) = ids :=
    reorder_filterMap_taskIds h1
  have hN' : (ids.filterMap (taskMapLookup ts)).Nodup := by
    apply List.Nodup.of_map (·.id)
    show (taskIds (ids.filterMap (taskMapLookup ts))).Nodup
    rw [hids']; exact hid
  refine (List.perm_ext_iff_of_nodup hN' htask).mpr ?_
  intro t
  constructor
  · intro ht
    obtain ⟨i, _, hlk⟩ := List.mem_filterMap.mp ht
    exact (taskMapLookup_mem hlk).1
  · intro ht
    obtain ⟨i, hi, hii⟩ := h2 t ht
    have hsome := taskMapLookup_isSome ⟨t, ht, hii⟩
    obtain ⟨u, hu⟩ := Option.isSome_iff_exists.mp hsome
    obtain ⟨hu1, hu2⟩ := taskMapLookup_mem hu
    have : u = t := eq_of_id_eq_of_mem hN u hu1 t ht (by rw [hu2, hii])
    exact List.mem_filterMap.mpr ⟨i, hi, by rw [hu, this]⟩

/-- Claim C6: reorder_tasks with an id list that is not a permutation of the
current task ids returns failure and leaves the in-memory task list, its
order, the id counter and the persisted mission log unchanged; with a
permutation it reorders the tasks to match the list and returns success. -/
theorem reorder_tasks_permutation_check (s : MLState) (ids : List Nat)
    (h : (taskIds s.tasks).Nodup) :
    (¬ ids.Perm (taskIds s.tasks) → reorderTasks s ids = (s, false)) ∧
    (ids.Perm (taskIds s.tasks) →
      (reorderTasks s ids).2 = true ∧
      taskIds (reorderTasks s ids).1.tasks = ids ∧
      (reorderTasks s ids).1.tasks.Perm s.tasks ∧
      (reorderTasks s ids).1.nextId = s.nextId) := by
  constructor
  · intro hnp
    have hg : reorderGuard s.tasks ids = false := by
      cases hgb : reorderGuard s.tasks ids with
      | false => rfl
      | true => exact absurd (perm_of_guard h hgb) hnp
    simp [reorderTasks, hg]
  · intro hp
    have hg := guard_of_perm hp
    obtain ⟨_, h1, _⟩ := reorderGuard_iff.mp hg
    refine ⟨by simp [reorderTasks, hg], ?_, ?_, ?_⟩
    · simp only [reorderTasks, hg, if_pos]
      exact reorder_filterMap_taskIds h1
    · simp only [reorderTasks, hg, if_pos]
      exact reorder_result_perm h hg
    · simp [reorderTasks, hg, MLState.save]

/-- Witness for C6 at a concrete log: reordering tasks 1,2 to the order
2,1 succeeds, while the non-permutation 3,1 is rejected unchanged. -/
theorem reorder_tasks_permutation_check_witness :
    ((reorderTasks ⟨[⟨1, "a", false, none, none⟩, ⟨2, "b", false, none, none⟩], 3, "", []⟩
        [2, 1]).2 = true ∧
      taskIds (reorderTasks ⟨[⟨1, "a", false, none, none⟩, ⟨2, "b", false, none, none⟩], 3, "", []⟩
        [2, 1]).1.tasks = [2, 1]) ∧
    reorderTasks ⟨[⟨1, "a", false, none, none⟩, ⟨2, "b", false, none, none⟩], 3, "", []⟩ [3, 1]
      = (⟨[⟨1, "a", false, none, none⟩, ⟨2, "b", false, none, none⟩], 3, "", []⟩, false) := by
  have h := reorder_tasks_permutation_check
    ⟨[⟨1, "a", false, none, none⟩, ⟨2, "b", false, none, none⟩], 3, "", []⟩ [2, 1] (by decide)
  have h2 := reorder_tasks_permutation_check
    ⟨[⟨1, "a", false, none, none⟩, ⟨2, "b", false, none, none⟩], 3, "", []⟩ [3, 1] (by decide)
  refine ⟨⟨(h.2 (by decide)).1, (h.2 (by decide)).2.1⟩, h2.1 (by decide)⟩

/-! ### Id invariants across operation sequences (claim C7) -/

lemma save_tasks (s : MLState) : s.save.tasks = s.tasks := rfl

lemma save_nextId (s : MLState) : s.save.nextId = s.nextId := rfl

lemma addTaskInternal_tasks (s : MLState) (d : String) (tc : Option String) :
    (addTaskInternal s d tc).tasks = s.tasks ++ [⟨s.nextId, d, false, tc, none⟩] := rfl

lemma addTaskInternal_nextId (s : MLState) (d : String) (tc : Option String) :
    (addTaskInternal s d tc).nextId = s.nextId + 1 := rfl

lemma addStepsInternal_spec (steps : List String) (s : MLState) :
    taskIds (addStepsInternal s steps).tasks
      = taskIds s.tasks ++ (List.range steps.length).map (fun k => s.nextId + k) ∧
    (addStepsInternal s steps).nextId = s.nextId + steps.length := by
  induction steps generalizing s with
  | nil => simp [addStepsInternal]
  | cons st rest ih =>
    obtain ⟨ih1, ih2⟩ := ih (addTaskInternal s st none)
    have hei : taskIds (addTaskInternal s st none).tasks = taskIds s.tasks ++ [s.nextId] := by
      rw [addTaskInternal_tasks, taskIds_append]; rfl
    have hstep : addStepsInternal s (st :: rest)
        = addStepsInternal (addTaskInternal s st none) rest := rfl
    have hrhs : (List.range (st :: rest).length).map (fun k => s.nextId + k)
        = s.nextId :: (List.range rest.length).map (fun k => s.nextId + 1 + k) := by
      rw [List.length_cons, List.range_succ_eq_map, List.map_cons, List.map_map]
      refine congrArg₂ _ (by omega) ?_
      apply List.map_congr_left
      intro k _
      show s.nextId + (k + 1) = s.nextId + 1 + k
      omega
    constructor
    · rw [hstep, ih1, hei, hrhs]
      rw [addTaskInternal_nextId, List.append_assoc, List.singleton_append]
    · rw [hstep, ih2, addTaskInternal_nextId, List.length_cons]
      omega

lemma mem_fresh_range {n len x : Nat}
    (hx : x ∈ (List.range len).map (fun k => n + k)) : n ≤ x ∧ x < n + len := by
  obtain ⟨k, hk, rfl⟩ := List.mem_map.mp hx
  have := List.mem_range.mp hk
  omega

lemma fresh_range_chain (n len : Nat) :
    List.Chain' (· < ·) ((List.range len).map (fun k => n + k)) := by
  rw [List.chain'_iff_pairwise]
  exact (List.pairwise_lt_range len).map _ (fun a b h => by omega)

lemma nodup_append_fresh {l : List Nat} {n len : Nat}
    (hl : l.Nodup) (hlt : ∀ x ∈ l, x < n) :
    (l ++ (List.range len).map (fun k => n + k)).Nodup := by
  refine hl.append ?_ ?_
  · exact List.Nodup.map (fun a b h => by omega) (List.nodup_range len)
  · rw [List.disjoint_left]
    intro x hx hx'
    exact absurd (hlt x hx) (by have := (mem_fresh_range hx').1; omega)

lemma mem_taskIds_lt {s : MLState} (h : ∀ t ∈ s.tasks, t.id < s.nextId) :
    ∀ x ∈ taskIds s.tasks, x < s.nextId := by
  intro x hx
  obtain ⟨t, ht, rfl⟩ := List.mem_map.mp hx
  exact h t ht

lemma applyOp_spec (s : MLState) (op : LogOp) (h : LogInv s) :
    LogInv (applyOp s op) ∧ s.nextId ≤ (applyOp s op).nextId ∧
    List.Chain' (· < ·) (opAssigned s op) ∧
    (∀ a ∈ opAssigned s op, s.nextId ≤ a ∧ a < (applyOp s op).nextId) := by
  obtain ⟨hN, hlt, h1⟩ := h
  cases op with
  | add d tc =>
    by_cases hd : d = ""
    · rw [applyOp, opAssigned, addTask]
      rw [if_pos hd, if_pos hd]
      exact ⟨⟨hN, hlt, h1⟩, Nat.le_refl _, List.chain'_nil, by intro a ha; cases ha⟩
    · rw [applyOp, opAssigned, addTask]
      rw [if_neg hd, if_neg hd]
      have htasks : ((addTaskInternal s d tc).save, true).1.tasks
          = s.tasks ++ [⟨s.nextId, d, false, tc, none⟩] := rfl
      have hnx : ((addTaskInternal s d tc).save, true).1.nextId = s.nextId + 1 := rfl
      refine ⟨⟨?_, ?_, ?_⟩, ?_, ?_, ?_⟩
      · rw [htasks, taskIds_append]
        have e1 : taskIds [⟨s.nextId, d, false, tc, none⟩]
            = (List.range 1).map (fun k => s.nextId + k) := by
          show [s.nextId] = (List.range 1).map (fun k => s.nextId + k)
          simp [List.range_succ]
        rw [e1]
        exact nodup_append_fresh hN (mem_taskIds_lt hlt)
      · rw [htasks]
        intro t ht
        rw [hnx]
        rcases List.mem_append.mp ht with ht' | ht'
        · exact Nat.lt_succ_of_lt (hlt t ht')
        · rw [List.mem_singleton.mp ht']
          show s.nextId < s.nextId + 1
          omega
      · rw [hnx]; omega
      · rw [hnx]; omega
      · exact List.chain'_singleton _
      · intro a ha
        rw [List.mem_singleton.mp ha, hnx]
        omega
  | del i =>
    have hpair : (applyOp s (.del i)).tasks.Sublist s.tasks ∧
        (applyOp s (.del i)).nextId = s.nextId := by
      rw [applyOp, deleteTask]
      cases s.tasks.find? (fun t => t.id == i) with
      | none => exact ⟨List.Sublist.refl _, rfl⟩
      | some t => exact ⟨List.eraseP_sublist s.tasks, rfl⟩
    obtain ⟨hsub, hnx⟩ := hpair
    refine ⟨⟨?_, ?_, by omega⟩, by omega, List.chain'_nil, by intro a ha; cases ha⟩
    · exact (hsub.map (·.id)).nodup (show (s.tasks.map (·.id)).Nodup from hN)
    · intro t ht
      rw [hnx]
      exact hlt t (hsub.subset ht)
  | replaceFrom i steps =>
    rw [applyOp, opAssigned]
    cases hix : findTaskIdx s.tasks i with
    | none =>
      simp only [replaceTasksFromId, hix]
      exact ⟨⟨hN, hlt, h1⟩, Nat.le_refl _, List.chain'_nil, by intro a ha; cases ha⟩
    | some idx =>
      simp only [replaceTasksFromId, hix]
      obtain ⟨e1, e2⟩ := addStepsInternal_spec steps ⟨s.tasks.take idx, s.nextId, s.goal, s.disk⟩
      simp only at e1 e2
      have htakeN : ((s.tasks.take idx).map (·.id)).Nodup :=
        ((List.take_sublist idx s.tasks).map (·.id)).nodup
          (show (s.tasks.map (·.id)).Nodup from hN)
      have htakelt : ∀ x ∈ (s.tasks.take idx).map (·.id), x < s.nextId := by
        intro x hx
        obtain ⟨t, ht, rfl⟩ := List.mem_map.mp hx
        exact hlt t ((List.take_sublist idx s.tasks).subset ht)
      have hids : taskIds ((addStepsInternal ⟨s.tasks.take idx, s.nextId, s.goal, s.disk⟩ steps).save.tasks)
          = taskIds (s.tasks.take idx) ++ (List.range steps.length).map (fun k => s.nextId + k) := by
        rw [save_tasks]; exact e1
      have hnx : ((addStepsInternal ⟨s.tasks.take idx, s.nextId, s.goal, s.disk⟩ steps).save).nextId
          = s.nextId + steps.length := by
        rw [save_nextId]; exact e2
      refine ⟨⟨?_, ?_, by rw [hnx]; omega⟩, by rw [hnx]; omega, fresh_range_chain _ _, ?_⟩
      · rw [hids]
        exact nodup_append_fresh htakeN htakelt
      · intro t ht
        rw [hnx]
        have hmem : t.id ∈ taskIds ((addStepsInternal ⟨s.tasks.take idx, s.nextId, s.goal, s.disk⟩ steps).save.tasks) :=
          List.mem_map_of_mem (·.id) ht
        rw [hids] at hmem
        rcases List.mem_append.mp hmem with h' | h'
        · have := htakelt _ h'; omega
        · have := mem_fresh_range h'; omega
      · intro a ha
        rw [hnx]
        exact mem_fresh_range ha
  | reorder ids =>
    rw [applyOp, reorderTasks]
    by_cases hg : reorderGuard s.tasks ids = true
    · rw [if_pos hg]
      obtain ⟨_, hg1, _⟩ := reorderGuard_iff.mp hg
      have hids := ids_nodup_of_guard hN hg
      have htasks : ((MLState.save ⟨ids.filterMap (taskMapLookup s.tasks), s.nextId, s.goal, s.disk⟩, true)).1.tasks
          = ids.filterMap (taskMapLookup s.tasks) := rfl
      have hnx : ((MLState.save ⟨ids.filterMap (taskMapLookup s.tasks), s.nextId, s.goal, s.disk⟩, true)).1.nextId
          = s.nextId := rfl
      refine ⟨⟨?_, ?_, by rw [hnx]; omega⟩, by rw [hnx], List.chain'_nil, by intro a ha; cases ha⟩
      · rw [htasks]
        show (taskIds (ids.filterMap (taskMapLookup s.tasks))).Nodup
        rw [reorder_filterMap_taskIds hg1]
        exact hids
      · rw [htasks, hnx]
        intro t ht
        exact hlt t ((reorder_result_perm hN hg).subset ht)
    · rw [if_neg hg]
      exact ⟨⟨hN, hlt, h1⟩, Nat.le_refl _, List.chain'_nil, by intro a ha; cases ha⟩

lemma runOps_cons (s : MLState) (op : LogOp) (ops : List LogOp) :
    runOps s (op :: ops)
      = ((runOps (applyOp s op) ops).1, opAssigned s op ++ (runOps (applyOp s op) ops).2) := rfl

lemma runOps_spec (ops : List LogOp) (s : MLState) (h : LogInv s) :
    LogInv (runOps s ops).1 ∧ s.nextId ≤ (runOps s ops).1.nextId ∧
    List.Chain' (· < ·) (runOps s ops).2 ∧
    (∀ a ∈ (runOps s ops).2, s.nextId ≤ a ∧ a < (runOps s ops).1.nextId) := by
  induction ops generalizing s with
  | nil =>
    exact ⟨h, Nat.le_refl _, List.chain'_nil, by intro a ha; cases ha⟩
  | cons op ops ih =>
    obtain ⟨hI, hle, hch, hbd⟩ := applyOp_spec s op h
    obtain ⟨ihI, ihle, ihch, ihbd⟩ := ih (applyOp s op) hI
    rw [runOps_cons]
    refine ⟨ihI, le_trans hle ihle, ?_, ?_⟩
    · refine hch.append ihch ?_
      intro x hx y hy
      have hx' := hbd x (List.mem_of_mem_getLast? hx)
      have hy' := ihbd y (List.mem_of_mem_head? hy)
      omega
    · intro a ha
      rcases List.mem_append.mp ha with h' | h'
      · have := hbd a h'
        exact ⟨this.1, lt_of_lt_of_le this.2 ihle⟩
      · have := ihbd a h'
        exact ⟨le_trans hle this.1, this.2⟩

def LogOp.isReorder : LogOp → Bool
  | .reorder _ => true
  | _ => false

lemma applyOp_sorted (s : MLState) (op : LogOp) (h : LogInv s)
    (hs : List.Pairwise (· < ·) (taskIds s.tasks)) (hnr : op.isReorder = false) :
    List.Pairwise (· < ·) (taskIds (applyOp s op).tasks) := by
  obtain ⟨hN, hlt, h1⟩ := h
  cases op with
  | add d tc =>
    by_cases hd : d = ""
    · rw [applyOp, addTask, if_pos hd]; exact hs
    · rw [applyOp, addTask, if_neg hd]
      show List.Pairwise (· < ·) (taskIds (s.tasks ++ [⟨s.nextId, d, false, tc, none⟩]))
      rw [taskIds_append, List.pairwise_append]
      refine ⟨hs, List.pairwise_singleton _ _, ?_⟩
      intro x hx y hy
      rw [show taskIds [⟨s.nextId, d, false, tc, none⟩] = [s.nextId] from rfl] at hy
      rw [List.mem_singleton.mp hy]
      exact mem_taskIds_lt hlt x hx
  | del i =>
    have hsub : (applyOp s (.del i)).tasks.Sublist s.tasks := by
      rw [applyOp, deleteTask]
      cases s.tasks.find? (fun t => t.id == i) with
      | none => exact List.Sublist.refl _
      | some t => exact List.eraseP_sublist s.tasks
    have hsubIds : (taskIds (applyOp s (.del i)).tasks).Sublist (taskIds s.tasks) :=
      hsub.map (fun t : MLTask => t.id)
    exact List.Pairwise.sublist hsubIds hs
  | replaceFrom i steps =>
    rw [applyOp]
    cases hix : findTaskIdx s.tasks i with
    | none => simp only [replaceTasksFromId, hix]; exact hs
    | some idx =>
      simp only [replaceTasksFromId, hix]
      obtain ⟨e1, _⟩ := addStepsInternal_spec steps ⟨s.tasks.take idx, s.nextId, s.goal, s.disk⟩
      simp only at e1
      have hids : taskIds ((addStepsInternal ⟨s.tasks.take idx, s.nextId, s.goal, s.disk⟩ steps).save.tasks)
          = taskIds (s.tasks.take idx) ++ (List.range steps.length).map (fun k => s.nextId + k) := by
        rw [save_tasks]; exact e1
      rw [hids, List.pairwise_append]
      refine ⟨?_, ?_, ?_⟩
      · have htk : (taskIds (s.tasks.take idx)).Sublist (taskIds s.tasks) :=
          (List.take_sublist idx s.tasks).map (fun t : MLTask => t.id)
        exact List.Pairwise.sublist htk hs
      · exact (List.pairwise_lt_range _).map _ (fun a b hab => by omega)
      · intro x hx y hy
        obtain ⟨t, ht, rfl⟩ := List.mem_map.mp hx
        have hx' := hlt t ((List.take_sublist idx s.tasks).subset ht)
        have hy' := (mem_fresh_range hy).1
        omega
  | reorder ids => cases hnr

lemma runOps_sorted (ops : List LogOp) (s : MLState) (h : LogInv s)
    (hs : List.Pairwise (· < ·) (taskIds s.tasks))
    (hnr : ∀ op ∈ ops, op.isReorder = false) :
    List.Pairwise (· < ·) (taskIds (runOps s ops).1.tasks) := by
  induction ops generalizing s with
  | nil => exact hs
  | cons op ops ih =>
    rw [runOps_cons]
    exact ih (applyOp s op) (applyOp_spec s op h).1
      (applyOp_sorted s op h hs (hnr op (List.mem_cons_self op ops)))
      (fun o ho => hnr o (List.mem_cons_of_mem op ho))

lemma foldr_max_lt {l : List Nat} {n : Nat} (h0 : 0 < n) (h : ∀ x ∈ l, x < n) :
    l.foldr max 0 < n := by
  induction l with
  | nil => simpa using h0
  | cons a l ih =>
    rw [List.foldr_cons]
    exact max_lt (h a (List.mem_cons_self a l))
      (ih (fun x hx => h x (List.mem_cons_of_mem a hx)))

/-- Counterexample to claim C7 as stated: starting from a fresh log, two
add_task calls followed by the legal reorder_tasks([2, 1]) (a permutation,
accepted with success) leave the task list with ids [2, 1], which is not
strictly increasing in list order. -/
theorem mission_log_sorted_ids_counterexample :
    taskIds (runOps MLState.fresh
        [.add "a" none, .add "b" none, .reorder [2, 1]]).1.tasks = [2, 1] ∧
    ¬ List.Pairwise (· < ·)
      (taskIds (runOps MLState.fresh
        [.add "a" none, .add "b" none, .reorder [2, 1]]).1.tasks) := by
  decide

/-- Claim C7 (amended): across every sequence of add_task, delete_task,
replace_tasks_from_id and reorder_tasks, the task ids stay pairwise
distinct (strictly increasing in list order whenever no reorder occurs in
the sequence), next_id stays strictly above the maximum existing id (0 for
an empty list), and no id is ever assigned twice: the ids handed out during
the run are mutually distinct and distinct from every initially present
id. -/
theorem mission_log_id_invariants (s : MLState) (ops : List LogOp)
    (h : LogInv s) (hs : List.Pairwise (· < ·) (taskIds s.tasks)) :
    (taskIds (runOps s ops).1.tasks).Nodup ∧
    (taskIds (runOps s ops).1.tasks).foldr max 0 < (runOps s ops).1.nextId ∧
    (taskIds s.tasks ++ (runOps s ops).2).Nodup ∧
    ((∀ op ∈ ops, op.isReorder = false) →
      List.Pairwise (· < ·) (taskIds (runOps s ops).1.tasks)) := by
  obtain ⟨hI, hle, hch, hbd⟩ := runOps_spec ops s h
  obtain ⟨hN', hlt', h1'⟩ := hI
  refine ⟨hN', ?_, ?_, fun hnr => runOps_sorted ops s h hs hnr⟩
  · exact foldr_max_lt (by omega) (mem_taskIds_lt hlt')
  · refine (h.1).append ?_ ?_
    · have : List.Pairwise (· < ·) (runOps s ops).2 := List.chain'_iff_pairwise.mp hch
      exact this.imp (fun hab => Nat.ne_of_lt hab)
    · rw [List.disjoint_left]
      intro x hx hx'
      have h1 := mem_taskIds_lt h.2.1 x hx
      have h2 := (hbd x hx').1
      omega

/-- Witness for C7 at a concrete run: from a fresh log, add two tasks,
delete task 1, replace from task 2 with two new steps, then reorder. -/
theorem mission_log_id_invariants_witness :
    (taskIds (runOps MLState.fresh
        [.add "a" none, .add "b" none, .del 1, .replaceFrom 2 ["c", "d"], .reorder [4, 3]]).1.tasks).Nodup ∧
    (taskIds MLState.fresh.tasks
        ++ (runOps MLState.fresh
          [.add "a" none, .add "b" none, .del 1, .replaceFrom 2 ["c", "d"], .reorder [4, 3]]).2).Nodup := by
  have h := mission_log_id_invariants MLState.fresh
    [.add "a" none, .add "b" none, .del 1, .replaceFrom 2 ["c", "d"], .reorder [4, 3]]
    (by refine ⟨?_, ?_, ?_⟩ <;> decide) (by decide)
  exact ⟨h.1, h.2.2.1⟩

/-! ## Path handling in the Tool Runner (claim C1)

ToolRunnerService._prepare_parameters resolves the values of the fixed key
set path / source_path / destination_path / requirements_path.  Paths are
modelled in POSIX form: a flag for absoluteness plus the component list, as
pathlib's PurePosixPath normalises them (empty and "." components vanish at
parse time, ".." survives and is eliminated lexically by resolve()). -/

structure PyPath where
  isAbs : Bool
  comps : List String
  deriving Repr, DecidableEq

/-- Split a character list at every occurrence of a separator (the
semantics of str.split used on the path text). -/
def splitOnChar (sep : Char) : List Char → List (List Char)
  | [] => [[]]
  | c :: rest =>
    match splitOnChar sep rest with
    | [] => [[c]]
    | h :: t => if c = sep then [] :: h :: t else (c :: h) :: t

def pathIsAbs (cs : List Char) : Bool :=
  match cs with
  | c :: _ => c == '/'
  | [] => false

/-- Parse a POSIX path string the way PurePosixPath does: a leading slash
makes it absolute; empty and "." components vanish at parse time. -/
def parsePath (s : String) : PyPath :=
  ⟨pathIsAbs s.data,
    ((splitOnChar '/' s.data).map (fun cs => String.mk cs)).filter
      (fun c => !(c == "") && !(c == "."))⟩

/-- The lexical core of Path.resolve(): ".." removes the preceding
component (a ".." at the root is dropped), every other component is kept. -/
def resolveComps (cs : List String) : List String :=
  cs.foldl (fun acc c => if c = ".." then acc.dropLast else acc ++ [c]) []

def joinSlash : List String → String
  | [] => ""
  | [c] => c
  | c :: rest => c ++ "/" ++ joinSlash rest

/-- Render an absolute path back to a string (str of the resolved Path). -/
def renderAbs (comps : List String) : String :=
  "/" ++ joinSlash comps

/-- ToolRunnerService._prepare_parameters, path branch: a nonempty relative
string value is replaced by str((base_path / value).resolve()); an absolute
or empty value is passed through unchanged.  No containment check is made
and no error path exists. -/
def preparePathParam (base : PyPath) (value : String) : String :=
  if value = "" then value
  else if (parsePath value).isAbs then value
  else renderAbs (resolveComps (base.comps ++ (parsePath value).comps))

/-- The same computation kept at the path level (before rendering), so the
containment property can be stated without string round-trips. -/
def preparePathParamP (base : PyPath) (value : String) : PyPath :=
  if value = "" then parsePath value
  else if (parsePath value).isAbs then parsePath value
  else ⟨true, resolveComps (base.comps ++ (parsePath value).comps)⟩

/-- Section 4.1 of the spec: an absolute path lying inside the project
root, component-prefix-wise. -/
def insideRoot (base : PyPath) (p : PyPath) : Bool :=
  p.isAbs && base.comps.isPrefixOf p.comps

/-- Counterexample to claim C1 as stated: with project root
/workspaces/7/proj, the relative parameter "../../etc/passwd" is resolved
to /workspaces/etc/passwd, which is outside the root, and the absolute
parameter "/tmp/other" (also outside the root) is passed through verbatim;
neither is rejected, both reach the action function. -/
theorem tool_path_sandbox_counterexample :
    preparePathParam ⟨true, ["workspaces", "7", "proj"]⟩ "../../etc/passwd"
        = "/workspaces/etc/passwd" ∧
    insideRoot ⟨true, ["workspaces", "7", "proj"]⟩
        (preparePathParamP ⟨true, ["workspaces", "7", "proj"]⟩ "../../etc/passwd") = false ∧
    preparePathParam ⟨true, ["workspaces", "7", "proj"]⟩ "/tmp/other" = "/tmp/other" ∧
    insideRoot ⟨true, ["workspaces", "7", "proj"]⟩ (parsePath "/tmp/other") = false := by
  refine ⟨by decide, by decide, by decide, by decide⟩

lemma resolveComps_go (cs : List String) (acc : List String) (h : ".." ∉ cs) :
    cs.foldl (fun acc c => if c = ".." then acc.dropLast else acc ++ [c]) acc = acc ++ cs := by
  induction cs generalizing acc with
  | nil => simp
  | cons c cs ih =>
    rw [List.foldl_cons, if_neg (fun hc => h (by rw [← hc]; exact List.mem_cons_self c cs))]
    rw [ih (acc ++ [c]) (fun hm => h (List.mem_cons_of_mem c hm))]
    simp

lemma resolveComps_no_dotdot {cs : List String} (h : ".." ∉ cs) :
    resolveComps cs = cs := by
  rw [resolveComps, resolveComps_go cs [] h, List.nil_append]

/-- Claim C1 (amended): _prepare_parameters resolves a nonempty relative
path parameter against the active project root and passes an absolute one
through verbatim; no path-escape check is performed.  Consequently a
relative path whose components avoid ".." always lands inside the root
(provided the root itself is ".."-free), while ".."-escaping or
outside-root absolute parameters reach the action function unrejected, as
the counterexample shows. -/
theorem tool_path_resolution (base : PyPath) (value : String)
    (hb : ".." ∉ base.comps) (hv : value ≠ "")
    (habs : (parsePath value).isAbs = false)
    (hdd : ".." ∉ (parsePath value).comps) :
    insideRoot base (preparePathParamP base value) = true ∧
    preparePathParamP base value = ⟨true, base.comps ++ (parsePath value).comps⟩ := by
  have hres : resolveComps (base.comps ++ (parsePath value).comps)
      = base.comps ++ (parsePath value).comps := by
    refine resolveComps_no_dotdot ?_
    intro hm
    rcases List.mem_append.mp hm with h' | h'
    · exact hb h'
    · exact hdd h'
  have hp : preparePathParamP base value = ⟨true, base.comps ++ (parsePath value).comps⟩ := by
    rw [preparePathParamP, if_neg hv, if_neg (by rw [habs]; exact Bool.false_ne_true), hres]
  refine ⟨?_, hp⟩
  rw [hp, insideRoot]
  simp

/-- Witness for C1 (amended) at a concrete root and parameter. -/
theorem tool_path_resolution_witness :
    insideRoot ⟨true, ["workspaces", "7", "proj"]⟩
      (preparePathParamP ⟨true, ["workspaces", "7", "proj"]⟩ "src/app.py") = true := by
  exact (tool_path_resolution ⟨true, ["workspaces", "7", "proj"]⟩ "src/app.py"
    (by decide) (by decide) (by decide) (by decide)).1

/-! ## Tool result classification (claims C8, C10)

Structural embeddings of the Python str methods used by the classifiers
(strip, lower, startswith, substring containment), then the two
classifiers: ToolRunnerService.run_tool's status computation and
ConductorService._is_result_an_error. -/

def isPySpace (c : Char) : Bool :=
  c == ' ' || c == '\t' || c == '\n' || c == '\r' || c == '\x0b' || c == '\x0c'

/-- Python str.strip(). -/
def pyStrip (s : String) : String :=
  ⟨((s.data.dropWhile isPySpace).reverse.dropWhile isPySpace).reverse⟩

/-- Python str.lower() (ASCII case folding suffices for the classifiers). -/
def pyLower (s : String) : String :=
  ⟨s.data.map Char.toLower⟩

/-- Python str.startswith. -/
def pyStartsWith (s pre : String) : Bool :=
  pre.data.isPrefixOf s.data

def containsSubList (pat : List Char) : List Char → Bool
  | [] => pat.isEmpty
  | c :: rest => pat.isPrefixOf (c :: rest) || containsSubList pat rest

/-- Python `pat in s` substring containment. -/
def pyContains (s pat : String) : Bool :=
  containsSubList pat.data s.data

/-- The result shapes the classifiers distinguish: Python None, a string, a
dict (only string-valued fields are ever read), or any other value. -/
inductive ToolResult where
  | pynone
  | pystr (s : String)
  | pydict (fields : List (String × String))
  | pyother
  deriving Repr, DecidableEq

/-- Python dict.get on the modelled dict. -/
def dictGet (fields : List (String × String)) (key : String) : Option String :=
  (fields.find? (fun kv => kv.1 == key)).map (fun kv => kv.2)

/-- ToolRunnerService.run_tool, lines 108-113: status is FAILURE for a
string whose strip().lower() starts with "error", or a dict whose status
field is exactly "failure" or "error"; everything else (None included) is
SUCCESS. -/
def runToolStatus (r : ToolResult) : String :=
  match r with
  | .pystr s => if pyStartsWith (pyLower (pyStrip s)) "error" then "FAILURE" else "SUCCESS"
  | .pydict f =>
    match dictGet f "status" with
    | some v => if v == "failure" || v == "error" then "FAILURE" else "SUCCESS"
    | none => "SUCCESS"
  | _ => "SUCCESS"

/-- Python `a or b or dflt` over optional strings (empty strings are
falsy), as used for the failure message. -/
def pyOrStr (a b : Option String) (dflt : String) : String :=
  match a with
  | some s => if s == "" then (match b with
      | some t => if t == "" then dflt else t
      | none => dflt) else s
  | none =>
    match b with
    | some t => if t == "" then dflt else t
    | none => dflt

/-- ConductorService._is_result_an_error: None is a failure; a string is a
failure when its strip().lower() starts with "error" or contains "failed";
a dict is a failure when its status (lower-cased, defaulting to "success")
is "failure" or "error"; anything else is a success. -/
def isResultAnError (r : ToolResult) : Bool × Option String :=
  match r with
  | .pynone => (true, some "Tool returned an empty result, which indicates a potential failure.")
  | .pystr s =>
    if pyStartsWith (pyLower (pyStrip s)) "error" || pyContains (pyLower (pyStrip s)) "failed" then
      (true, some s)
    else (false, none)
  | .pydict f =>
    if pyLower ((dictGet f "status").getD "success") == "failure"
        || pyLower ((dictGet f "status").getD "success") == "error" then
      (true, some (pyOrStr (dictGet f "summary") (dictGet f "full_output")
        "Tool indicated failure without a detailed message."))
    else (false, none)
  | .pyother => (false, none)

/-- The failure predicate exactly as claim C8 words it: a string beginning
case-insensitively with "Error" or containing "failed", or a dict whose
status field is "failure" or "error"; every other result is a success. -/
def claimFailure (r : ToolResult) : Bool :=
  match r with
  | .pystr s => pyStartsWith (pyLower s) "error" || pyContains s "failed"
  | .pydict f => dictGet f "status" == some "failure" || dictGet f "status" == some "error"
  | _ => false

/-- ToolRunnerService.FILESYSTEM_TOOLS. -/
def FILESYSTEM_TOOLS : List String :=
  ["write_file", "append_to_file", "create_directory", "create_package_init",
   "delete_directory", "copy_file", "move_file", "delete_file",
   "add_dependency_to_requirements"]

/-- ToolRunnerService.run_tool broadcast gate for file_tree_updated:
a user id is present, the status is SUCCESS and the tool is
filesystem-mutating. -/
def fileTreeBroadcast (hasUser : Bool) (actionId : String) (r : ToolResult) : Bool :=
  hasUser && (runToolStatus r == "SUCCESS") && FILESYSTEM_TOOLS.contains actionId

/-- Counterexample to claim C8 as stated: a None result is not a failure
under the claim's predicate, yet the Conductor classifies it FAILURE; and
the string "deployment failed" is a failure under the claim's predicate,
yet the Tool Runner's gate still broadcasts file_tree_updated for it after
a filesystem-mutating tool. -/
theorem result_classification_counterexample :
    (isResultAnError ToolResult.pynone).1 = true ∧
    claimFailure ToolResult.pynone = false ∧
    claimFailure (ToolResult.pystr "deployment failed") = true ∧
    fileTreeBroadcast true "write_file" (ToolResult.pystr "deployment failed") = true := by
  decide

/-- The amended conductor classification, stated spec-side as a predicate:
FAILURE exactly for None, an error-prefixed or "failed"-containing string
(case-insensitively, after stripping), or a dict whose lower-cased status
(defaulting to "success") is "failure" or "error". -/
def ConductorFailureSpec (r : ToolResult) : Prop :=
  r = .pynone ∨
  (∃ s, r = .pystr s ∧
    (pyStartsWith (pyLower (pyStrip s)) "error" = true ∨
      pyContains (pyLower (pyStrip s)) "failed" = true)) ∨
  (∃ f, r = .pydict f ∧
    (pyLower ((dictGet f "status").getD "success") = "failure" ∨
      pyLower ((dictGet f "status").getD "success") = "error"))

/-- The amended Tool Runner broadcast condition, stated spec-side:
file_tree_updated goes out iff a user is present, the tool is
filesystem-mutating, and the result is neither an error-prefixed string nor
a dict with literal status "failure"/"error" (None and "failed"-containing
strings do NOT suppress it). -/
def RunnerBroadcastSpec (hasUser : Bool) (actionId : String) (r : ToolResult) : Prop :=
  hasUser = true ∧ actionId ∈ FILESYSTEM_TOOLS ∧
  ¬ ((∃ s, r = .pystr s ∧ pyStartsWith (pyLower (pyStrip s)) "error" = true) ∨
     (∃ f, r = .pydict f ∧
       (dictGet f "status" = some "failure" ∨ dictGet f "status" = some "error")))

/-- Claim C8 (amended): the Conductor's classification is FAILURE exactly
on None, error-prefixed or "failed"-containing strings (case-insensitive,
stripped) and failure/error-status dicts (case-insensitive, defaulting to
success); the Tool Runner's file_tree_updated gate uses its own narrower
classification that ignores None and the "failed" substring and compares
the dict status case-sensitively, so the broadcast can fire for results the
Conductor counts as failures. -/
theorem result_classification (r : ToolResult) (hasUser : Bool) (actionId : String) :
    ((isResultAnError r).1 = true ↔ ConductorFailureSpec r) ∧
    (fileTreeBroadcast hasUser actionId r = true ↔ RunnerBroadcastSpec hasUser actionId r) := by
  constructor
  · cases r with
    | pynone => simp [isResultAnError, ConductorFailureSpec]
    | pystr s =>
      by_cases h1 : pyStartsWith (pyLower (pyStrip s)) "error" = true
      · simp [isResultAnError, ConductorFailureSpec, h1]
      · by_cases h2 : pyContains (pyLower (pyStrip s)) "failed" = true
        · simp [isResultAnError, ConductorFailureSpec, h1, h2]
        · simp [isResultAnError, ConductorFailureSpec, h1, h2]
    | pydict f =>
      by_cases h1 : pyLower ((dictGet f "status").getD "success") = "failure"
      · simp [isResultAnError, ConductorFailureSpec, h1]
      · by_cases h2 : pyLower ((dictGet f "status").getD "success") = "error"
        · simp [isResultAnError, ConductorFailureSpec, h1, h2]
        · simp [isResultAnError, ConductorFailureSpec, h1, h2]
    | pyother => simp [isResultAnError, ConductorFailureSpec]
  · cases r with
    | pynone =>
      simp [fileTreeBroadcast, runToolStatus, RunnerBroadcastSpec, List.contains_iff_exists_mem_beq,
        and_assoc]
    | pystr s =>
      by_cases h1 : pyStartsWith (pyLower (pyStrip s)) "error" = true
      · simp [fileTreeBroadcast, runToolStatus, RunnerBroadcastSpec, h1,
          List.contains_iff_exists_mem_beq]
      · simp [fileTreeBroadcast, runToolStatus, RunnerBroadcastSpec, h1,
          List.contains_iff_exists_mem_beq, and_assoc]
    | pydict f =>
      cases hst : dictGet f "status" with
      | none =>
        simp [fileTreeBroadcast, runToolStatus, RunnerBroadcastSpec, hst,
          List.contains_iff_exists_mem_beq, and_assoc]
      | some v =>
        by_cases h1 : v = "failure"
        · simp [fileTreeBroadcast, runToolStatus, RunnerBroadcastSpec, hst, h1,
            List.contains_iff_exists_mem_beq]
        · by_cases h2 : v = "error"
          · simp [fileTreeBroadcast, runToolStatus, RunnerBroadcastSpec, hst, h1, h2,
              List.contains_iff_exists_mem_beq]
          · simp [fileTreeBroadcast, runToolStatus, RunnerBroadcastSpec, hst, h1, h2,
              List.contains_iff_exists_mem_beq, and_assoc]
    | pyother =>
      simp [fileTreeBroadcast, runToolStatus, RunnerBroadcastSpec, List.contains_iff_exists_mem_beq,
        and_assoc]

/-! ### run_tool exception containment (claim C10) -/

/-- The f-string built in run_tool's except-branch. -/
def errorMarker (actionId e : String) : String :=
  "❌ Error executing Blueprint \x27" ++ actionId ++ "\x27: " ++ e

/-- The try/except of ToolRunnerService.run_tool around the action call: a
normal action result is returned as-is; an exception with text `e` is
caught and converted into the marker string, which is returned instead of
re-raising. -/
def runToolReturn (actionId : String) (outcome : Except String ToolResult) : ToolResult :=
  match outcome with
  | .ok r => r
  | .error e => .pystr (errorMarker actionId e)

/-- Claim C10: run_tool never propagates an action exception.  Every
exception outcome is returned as a string beginning with the marker
"❌ Error executing Blueprint ", and every normal outcome is returned
unchanged, so the Conductor always receives a classifiable value. -/
theorem run_tool_catches_exceptions (actionId e : String) (r : ToolResult) :
    (∃ rest, runToolReturn actionId (Except.error e)
        = ToolResult.pystr ("❌ Error executing Blueprint " ++ rest)) ∧
    runToolReturn actionId (Except.ok r) = r := by
  refine ⟨⟨"\x27" ++ actionId ++ ("\x27: " ++ e), ?_⟩, rfl⟩
  show ToolResult.pystr (errorMarker actionId e) = _
  rw [errorMarker]
  have hM : ("❌ Error executing Blueprint \x27" : String)
      = "❌ Error executing Blueprint " ++ "\x27" := by decide
  rw [hM]
  simp only [String.append_assoc]

/-! ## Requirements management (claim C9)

foundry/actions/dependency_management_actions.add_dependency_to_requirements,
embedded over the file text as a character list.  A missing file behaves as
empty text (the code touches it into existence).  The `lines` list used by
the de-duplication set and by the trailing-newline check is computed once,
before any write, exactly as in the source (the check against the stale
`lines[-1]` therefore repeats for every added dependency). -/

/-- Python file.readlines(): split after every newline, keeping the ends. -/
def readlinesAux (acc : List Char) : List Char → List (List Char)
  | [] => if acc.isEmpty then [] else [acc.reverse]
  | c :: rest =>
    if c = '\n' then (acc.reverse ++ ['\n']) :: readlinesAux [] rest
    else readlinesAux (c :: acc) rest

def pyReadlines (content : List Char) : List (List Char) := readlinesAux [] content

/-- Text before the first occurrence of "==", i.e. s.split("==")[0]. -/
def takeBeforeEqEq : List Char → List Char
  | [] => []
  | c :: rest =>
    if c == '=' && rest.head? == some '=' then []
    else c :: takeBeforeEqEq rest

/-- Python str.strip() on a character list. -/
def stripL (cs : List Char) : List Char :=
  ((cs.dropWhile isPySpace).reverse.dropWhile isPySpace).reverse

/-- dep.split("==")[0].split(">")[0].split("<")[0].strip().lower(): the
package-name key used for de-duplication. -/
def pkgKey (s : List Char) : List Char :=
  (stripL (((takeBeforeEqEq s).takeWhile (fun c => !(c == '>'))).takeWhile
    (fun c => !(c == '<')))).map Char.toLower

/-- Does the last line end with a newline (`lines[-1].endswith('\n')`)? -/
def lastEndsNl (lines : List (List Char)) : Bool :=
  match lines.getLast? with
  | some l =>
    match l.getLast? with
    | some c => c == '\n'
    | none => false
  | none => false

/-- The loop body of add_dependency_to_requirements: walk the dependency
list against the growing key set, returning the dependencies actually
appended (in order) and those skipped as already present (in order). -/
def addDepsLoop (existing : List (List Char)) :
    List (List Char) → List (List Char) × List (List Char)
  | [] => ([], [])
  | dep :: rest =>
    if existing.contains (pkgKey dep) then
      ((addDepsLoop existing rest).1, dep :: (addDepsLoop existing rest).2)
    else
      (dep :: (addDepsLoop (existing ++ [pkgKey dep]) rest).1,
        (addDepsLoop (existing ++ [pkgKey dep]) rest).2)

/-- The text written for the added dependencies: when the original last
line lacked a newline the code writes a lone newline first, and because it
re-checks the stale `lines` list it does so before every single added
dependency. -/
def appendedText (needsNl : Bool) : List (List Char) → List Char
  | [] => []
  | dep :: rest =>
    ((if needsNl then ['\n'] else []) ++ dep ++ ['\n']) ++ appendedText needsNl rest

def joinCommaSpace : List (List Char) → List Char
  | [] => []
  | [d] => d
  | d :: rest => d ++ [',', ' '] ++ joinCommaSpace rest

/-- The human-readable return message of add_dependency_to_requirements. -/
def addDepsMessage (added skipped : List (List Char)) : List Char :=
  match added.isEmpty, skipped.isEmpty with
  | true, true => "No changes made to requirements.txt.".data
  | false, true => "Successfully added: ".data ++ joinCommaSpace added ++ ['.']
  | true, false => "Already existed: ".data ++ joinCommaSpace skipped ++ ['.']
  | false, false =>
    "Successfully added: ".data ++ joinCommaSpace added ++ ['.'] ++ [' ']
      ++ "Already existed: ".data ++ joinCommaSpace skipped ++ ['.']

/-- add_dependency_to_requirements over the file text: returns the new file
text and the returned message.  An empty dependency list short-circuits
with an error message and no write. -/
def addDependencyToRequirements (content : List Char) (deps : List (List Char)) :
    List Char × List Char :=
  if deps.isEmpty then (content, "Error: No dependencies provided.".data)
  else
    (content
        ++ appendedText (!(pyReadlines content).isEmpty && !lastEndsNl (pyReadlines content))
          (addDepsLoop ((pyReadlines content).map pkgKey) deps).1,
      addDepsMessage (addDepsLoop ((pyReadlines content).map pkgKey) deps).1
        (addDepsLoop ((pyReadlines content).map pkgKey) deps).2)

/-! ### Structural lemmas about readlines and the package key -/

lemma readlinesAux_ne_nil (c : List Char) (acc : List Char) (h : c ≠ [] ∨ acc ≠ []) :
    readlinesAux acc c ≠ [] := by
  induction c generalizing acc with
  | nil =>
    rcases h with h | h
    · exact absurd rfl h
    · rw [readlinesAux]
      rw [if_neg (by simpa [List.isEmpty_iff] using h)]
      exact List.cons_ne_nil _ _
  | cons x rest ih =>
    rw [readlinesAux]
    by_cases hx : x = '\n'
    · rw [if_pos hx]; exact List.cons_ne_nil _ _
    · rw [if_neg hx]
      exact ih (x :: acc) (Or.inr (List.cons_ne_nil _ _))

lemma readlinesAux_nil (acc : List Char) :
    readlinesAux acc [] = if acc.isEmpty then [] else [acc.reverse] := rfl

lemma readlinesAux_cons (acc : List Char) (c : Char) (rest : List Char) :
    readlinesAux acc (c :: rest)
      = if c = '\n' then (acc.reverse ++ ['\n']) :: readlinesAux [] rest
        else readlinesAux (c :: acc) rest := rfl

lemma readlinesAux_append_nl (a : List Char) (acc b : List Char)
    (ha : a.getLast? = some '\n') :
    readlinesAux acc (a ++ b) = readlinesAux acc a ++ readlinesAux [] b := by
  induction a generalizing acc with
  | nil => simp at ha
  | cons x rest ih =>
    cases rest with
    | nil =>
      simp only [List.getLast?_singleton, Option.some_inj] at ha
      subst ha
      simp [readlinesAux_cons, readlinesAux_nil]
    | cons y rest' =>
      have ha' : (y :: rest').getLast? = some '\n' := by
        rw [List.getLast?_cons_cons] at ha
        exact ha
      by_cases hx : x = '\n'
      · subst hx
        conv_lhs => rw [List.cons_append, readlinesAux_cons, if_pos rfl]
        conv_rhs => rw [readlinesAux_cons, if_pos rfl]
        rw [ih [] ha', List.cons_append]
      · conv_lhs => rw [List.cons_append, readlinesAux_cons, if_neg hx]
        conv_rhs => rw [readlinesAux_cons, if_neg hx]
        exact ih (x :: acc) ha'

lemma readlinesAux_single (x : List Char) (acc : List Char) (hx : '\n' ∉ x) :
    readlinesAux acc (x ++ ['\n']) = [acc.reverse ++ x ++ ['\n']] := by
  induction x generalizing acc with
  | nil => simp [readlinesAux_cons, readlinesAux_nil]
  | cons c rest ih =>
    have hc : c ≠ '\n' := fun h => hx (h ▸ List.mem_cons_self c rest)
    rw [List.cons_append, readlinesAux_cons, if_neg hc]
    rw [ih (c :: acc) (fun h => hx (List.mem_cons_of_mem c h))]
    simp

lemma takeBeforeEqEq_nil : takeBeforeEqEq [] = [] := rfl

lemma takeBeforeEqEq_cons (c : Char) (rest : List Char) :
    takeBeforeEqEq (c :: rest)
      = if (c == '=' && rest.head? == some '=') = true then []
        else c :: takeBeforeEqEq rest := rfl

lemma takeBeforeEqEq_snoc_nl (x : List Char) :
    takeBeforeEqEq (x ++ ['\n']) = takeBeforeEqEq x ∨
    takeBeforeEqEq (x ++ ['\n']) = takeBeforeEqEq x ++ ['\n'] := by
  induction x with
  | nil =>
    right
    rw [takeBeforeEqEq_nil, List.nil_append, takeBeforeEqEq_cons,
      if_neg (by decide), takeBeforeEqEq_nil]
  | cons c rest ih =>
    have hhead : ((rest ++ ['\n']).head? == some '=') = (rest.head? == some '=') := by
      cases rest with
      | nil => decide
      | cons r rs => simp
    rw [List.cons_append, takeBeforeEqEq_cons, takeBeforeEqEq_cons, hhead]
    by_cases hcond : (c == '=' && rest.head? == some '=') = true
    · rw [if_pos hcond, if_pos hcond]
      exact Or.inl rfl
    · rw [if_neg hcond, if_neg hcond]
      rcases ih with ih | ih
      · left
        rw [ih]
      · right
        rw [ih, List.cons_append]

lemma takeWhile_snoc_pos (p : Char → Bool) (x : List Char) (c : Char) (hc : p c = true) :
    (x ++ [c]).takeWhile p = x.takeWhile p ∨
    (x ++ [c]).takeWhile p = x.takeWhile p ++ [c] := by
  induction x with
  | nil =>
    right
    simp [List.takeWhile_cons, hc]
  | cons a rest ih =>
    by_cases ha : p a = true
    · rw [List.cons_append, List.takeWhile_cons, List.takeWhile_cons, if_pos ha, if_pos ha]
      rcases ih with ih | ih
      · left
        rw [ih]
      · right
        rw [ih, List.cons_append]
    · left
      rw [List.cons_append, List.takeWhile_cons, List.takeWhile_cons, if_neg ha, if_neg ha]

lemma stripL_snoc_ws (x : List Char) (c : Char) (hc : isPySpace c = true) :
    stripL (x ++ [c]) = stripL x := by
  rw [stripL, stripL, List.dropWhile_append]
  by_cases he : (x.dropWhile isPySpace).isEmpty = true
  · rw [if_pos he]
    have hxe : x.dropWhile isPySpace = [] := List.isEmpty_iff.mp he
    rw [hxe]
    simp [List.dropWhile_cons, hc]
  · rw [if_neg (by simpa using he)]
    rw [List.reverse_append, List.reverse_singleton, List.singleton_append,
      List.dropWhile_cons]
    rw [if_pos hc]

lemma pkgKey_snoc_nl (x : List Char) : pkgKey (x ++ ['\n']) = pkgKey x := by
  rw [pkgKey, pkgKey]
  rcases takeBeforeEqEq_snoc_nl x with h1 | h1
  · rw [h1]
  · rw [h1]
    rcases takeWhile_snoc_pos (fun c => !(c == '>')) (takeBeforeEqEq x) '\n' (by decide)
      with h2 | h2
    · rw [h2]
    · rw [h2]
      rcases takeWhile_snoc_pos (fun c => !(c == '<'))
          ((takeBeforeEqEq x).takeWhile (fun c => !(c == '>'))) '\n' (by decide) with h3 | h3
      · rw [h3]
      · rw [h3, stripL_snoc_ws _ '\n' (by decide)]

/-- The package keys of the lines of a file text. -/
def linesKeys (c : List Char) : List (List Char) := (pyReadlines c).map pkgKey

lemma linesKeys_append_nl {a : List Char} (b : List Char) (ha : a.getLast? = some '\n') :
    linesKeys (a ++ b) = linesKeys a ++ linesKeys b := by
  rw [linesKeys, linesKeys, linesKeys, pyReadlines, pyReadlines, pyReadlines,
    readlinesAux_append_nl a [] b ha, List.map_append]

lemma linesKeys_single {d : List Char} (hd : '\n' ∉ d) :
    linesKeys (d ++ ['\n']) = [pkgKey d] := by
  rw [linesKeys, pyReadlines, readlinesAux_single d [] hd]
  rw [List.map_singleton, List.reverse_nil, List.nil_append, pkgKey_snoc_nl]

lemma keysAux_dangling (a : List Char) (acc b : List Char)
    (hne : a ≠ []) (hlast : a.getLast? ≠ some '\n') (hacc : '\n' ∉ acc) :
    (readlinesAux acc (a ++ '\n' :: b)).map pkgKey
      = (readlinesAux acc a).map pkgKey ++ (readlinesAux [] b).map pkgKey := by
  induction a generalizing acc with
  | nil => exact absurd rfl hne
  | cons x rest ih =>
    cases rest with
    | nil =>
      have hx : x ≠ '\n' := by
        intro h
        exact hlast (by rw [h]; rfl)
      conv_lhs => rw [List.cons_append, readlinesAux_cons, if_neg hx, List.nil_append,
        readlinesAux_cons, if_pos rfl]
      conv_rhs => rw [readlinesAux_cons, if_neg hx, readlinesAux_nil]
      have hne2 : ¬(x :: acc).isEmpty = true := by simp
      rw [if_neg hne2]
      rw [List.map_cons, List.map_singleton, List.singleton_append]
      have hnl : '\n' ∉ (x :: acc).reverse := by
        intro hm
        rcases List.mem_reverse.mp hm with hm'
        rcases List.mem_cons.mp hm' with h | h
        · exact hx h.symm
        · exact hacc h
      rw [pkgKey_snoc_nl ((x :: acc).reverse)]
    | cons y rest' =>
      have hlast' : (y :: rest').getLast? ≠ some '\n' := by
        rw [List.getLast?_cons_cons] at hlast
        exact hlast
      by_cases hx : x = '\n'
      · subst hx
        conv_lhs => rw [List.cons_append, readlinesAux_cons, if_pos rfl]
        conv_rhs => rw [readlinesAux_cons, if_pos rfl]
        rw [List.map_cons, List.map_cons, List.cons_append]
        have ihx := ih [] (List.cons_ne_nil y rest') hlast' (by simp)
        rw [List.cons_append] at ihx
        rw [ihx]
        exact (List.cons_append _ _ _).symm
      · conv_lhs => rw [List.cons_append, readlinesAux_cons, if_neg hx]
        conv_rhs => rw [readlinesAux_cons, if_neg hx]
        exact ih (x :: acc) (List.cons_ne_nil y rest') hlast' (by
          intro hm
          rcases List.mem_cons.mp hm with h | h
          · exact hx h.symm
          · exact hacc h)

lemma linesKeys_dangling {a : List Char} (b : List Char)
    (hne : a ≠ []) (hlast : a.getLast? ≠ some '\n') :
    linesKeys (a ++ '\n' :: b) = linesKeys a ++ linesKeys b := by
  rw [linesKeys, linesKeys, linesKeys, pyReadlines, pyReadlines, pyReadlines]
  exact keysAux_dangling a [] b hne hlast (by simp)

lemma lastEndsNl_cons_of_ne {l : List (List Char)} (x : List Char) (h : l ≠ []) :
    lastEndsNl (x :: l) = lastEndsNl l := by
  cases l with
  | nil => exact absurd rfl h
  | cons a as => rw [lastEndsNl, lastEndsNl, List.getLast?_cons_cons]

lemma lastEndsNl_of_nl (a : List Char) (acc : List Char) (ha : a.getLast? = some '\n') :
    lastEndsNl (readlinesAux acc a) = true := by
  induction a generalizing acc with
  | nil => simp at ha
  | cons x rest ih =>
    cases rest with
    | nil =>
      simp only [List.getLast?_singleton, Option.some_inj] at ha
      subst ha
      rw [readlinesAux_cons, if_pos rfl, readlinesAux_nil]
      simp [lastEndsNl, List.getLast?_concat]
    | cons y rest' =>
      have ha' : (y :: rest').getLast? = some '\n' := by
        rw [List.getLast?_cons_cons] at ha
        exact ha
      have hne : readlinesAux [] (y :: rest') ≠ [] :=
        readlinesAux_ne_nil _ _ (Or.inl (List.cons_ne_nil y rest'))
      by_cases hx : x = '\n'
      · subst hx
        rw [readlinesAux_cons, if_pos rfl, lastEndsNl_cons_of_ne _ hne]
        exact ih [] ha'
      · rw [readlinesAux_cons, if_neg hx]
        exact ih (x :: acc) ha'

lemma lastEndsNl_of_dangling (a : List Char) (acc : List Char)
    (hne : a ≠ []) (hlast : a.getLast? ≠ some '\n') (hacc : '\n' ∉ acc) :
    lastEndsNl (readlinesAux acc a) = false := by
  induction a generalizing acc with
  | nil => exact absurd rfl hne
  | cons x rest ih =>
    cases rest with
    | nil =>
      have hx : x ≠ '\n' := by
        intro h
        exact hlast (by rw [h]; rfl)
      rw [readlinesAux_cons, if_neg hx, readlinesAux_nil,
        if_neg (by simp)]
      rw [lastEndsNl]
      simp only [List.getLast?_singleton]
      rw [List.getLast?_reverse]
      simp only [List.head?_cons]
      simpa using hx
    | cons y rest' =>
      have hlast' : (y :: rest').getLast? ≠ some '\n' := by
        rw [List.getLast?_cons_cons] at hlast
        exact hlast
      have hne2 : readlinesAux [] (y :: rest') ≠ [] :=
        readlinesAux_ne_nil _ _ (Or.inl (List.cons_ne_nil y rest'))
      by_cases hx : x = '\n'
      · subst hx
        rw [readlinesAux_cons, if_pos rfl, lastEndsNl_cons_of_ne _ hne2]
        exact ih [] (List.cons_ne_nil y rest') hlast' (by simp)
      · rw [readlinesAux_cons, if_neg hx]
        exact ih (x :: acc) (List.cons_ne_nil y rest') hlast' (by
          intro hm
          rcases List.mem_cons.mp hm with h | h
          · exact hx h.symm
          · exact hacc h)

lemma pyReadlines_ne_nil {c : List Char} (h : c ≠ []) : pyReadlines c ≠ [] :=
  readlinesAux_ne_nil c [] (Or.inl h)

lemma linesKeys_nil : linesKeys [] = [] := rfl

lemma linesKeys_nl : linesKeys ['\n'] = [pkgKey ['\n']] := rfl

lemma appendedText_cons (needsNl : Bool) (d : List Char) (rest : List (List Char)) :
    appendedText needsNl (d :: rest)
      = ((if needsNl then ['\n'] else []) ++ d ++ ['\n']) ++ appendedText needsNl rest := rfl

lemma appended_keys (needsNl : Bool) (adds : List (List Char))
    (h : ∀ d ∈ adds, '\n' ∉ d) :
    ∀ c : List Char,
      (needsNl = false → (c = [] ∨ c.getLast? = some '\n')) →
      (needsNl = true → c ≠ []) →
      (∀ k ∈ linesKeys c, k ∈ linesKeys (c ++ appendedText needsNl adds)) ∧
      (∀ d ∈ adds, pkgKey d ∈ linesKeys (c ++ appendedText needsNl adds)) := by
  induction adds with
  | nil =>
    intro c _ _
    refine ⟨?_, ?_⟩
    · intro k hk
      rw [appendedText, List.append_nil]
      exact hk
    · intro d hd
      cases hd
  | cons d rest ih =>
    intro c hc0 hc1
    have hd : '\n' ∉ d := h d (List.mem_cons_self d rest)
    have hrest : ∀ x ∈ rest, '\n' ∉ x := fun x hx => h x (List.mem_cons_of_mem d hx)
    rcases Bool.eq_false_or_eq_true needsNl with hNl | hNl
    · subst hNl
      have hcne : c ≠ [] := hc1 rfl
      have hassoc : c ++ appendedText true (d :: rest)
          = (c ++ ('\n' :: (d ++ ['\n']))) ++ appendedText true rest := by
        simp [appendedText_cons, List.append_assoc]
      have hlast2 : (c ++ ('\n' :: (d ++ ['\n']))).getLast? = some '\n' := by
        rw [show ('\n' :: (d ++ ['\n'])) = ('\n' :: d) ++ ['\n'] from rfl]
        rw [← List.append_assoc]
        exact List.getLast?_concat _
      have hcne2 : (c ++ ('\n' :: (d ++ ['\n']))) ≠ [] := by simp
      have hkeys : ∃ extra, linesKeys (c ++ ('\n' :: (d ++ ['\n'])))
          = linesKeys c ++ extra ∧ pkgKey d ∈ extra := by
        by_cases hcl : c.getLast? = some '\n'
        · refine ⟨[pkgKey ['\n'], pkgKey d], ?_, by simp⟩
          rw [show ('\n' :: (d ++ ['\n'])) = ['\n'] ++ (d ++ ['\n']) from rfl]
          rw [linesKeys_append_nl (['\n'] ++ (d ++ ['\n'])) hcl]
          rw [linesKeys_append_nl (a := ['\n']) (d ++ ['\n']) rfl]
          rw [linesKeys_single hd, linesKeys_nl]
          rfl
        · refine ⟨[pkgKey d], ?_, by simp⟩
          rw [linesKeys_dangling (d ++ ['\n']) hcne hcl, linesKeys_single hd]
      obtain ⟨extra, hkE, hdE⟩ := hkeys
      obtain ⟨ih1, ih2⟩ := ih hrest (c ++ ('\n' :: (d ++ ['\n'])))
        (fun hf => absurd hf (by decide)) (fun _ => hcne2)
      rw [hassoc]
      refine ⟨?_, ?_⟩
      · intro k hk
        exact ih1 k (by rw [hkE]; exact List.mem_append_left _ hk)
      · intro d' hd'
        rcases List.mem_cons.mp hd' with heq | hd''
        · subst heq
          exact ih1 (pkgKey d') (by rw [hkE]; exact List.mem_append_right _ hdE)
        · exact ih2 d' hd''

    · subst hNl
      have hassoc : c ++ appendedText false (d :: rest)
          = (c ++ (d ++ ['\n'])) ++ appendedText false rest := by
        simp [appendedText_cons, List.append_assoc]
      have hkeys : linesKeys (c ++ (d ++ ['\n'])) = linesKeys c ++ [pkgKey d] := by
        rcases hc0 rfl with hce | hcl
        · subst hce
          rw [List.nil_append, linesKeys_single hd, linesKeys_nil, List.nil_append]
        · rw [linesKeys_append_nl (d ++ ['\n']) hcl, linesKeys_single hd]
      have hlast2 : (c ++ (d ++ ['\n'])).getLast? = some '\n' := by
        rw [← List.append_assoc]
        exact List.getLast?_concat _
      obtain ⟨ih1, ih2⟩ := ih hrest (c ++ (d ++ ['\n']))
        (fun _ => Or.inr hlast2) (fun hf => absurd hf (by decide))
      rw [hassoc]
      refine ⟨?_, ?_⟩
      · intro k hk
        exact ih1 k (by rw [hkeys]; exact List.mem_append_left _ hk)
      · intro d' hd'
        rcases List.mem_cons.mp hd' with heq | hd''
        · subst heq
          exact ih1 (pkgKey d') (by rw [hkeys]; simp)
        · exact ih2 d' hd''
lemma contains_mem {l : List (List Char)} {x : List Char} :
    l.contains x = true ↔ x ∈ l := by
  simp [List.contains_iff_exists_mem_beq]

lemma addDepsLoop_cons (existing : List (List Char)) (d : List Char)
    (rest : List (List Char)) :
    addDepsLoop existing (d :: rest)
      = if existing.contains (pkgKey d) then
          ((addDepsLoop existing rest).1, d :: (addDepsLoop existing rest).2)
        else
          (d :: (addDepsLoop (existing ++ [pkgKey d]) rest).1,
            (addDepsLoop (existing ++ [pkgKey d]) rest).2) := rfl

lemma addDepsLoop_skip_all (deps : List (List Char)) (existing : List (List Char))
    (h : ∀ d ∈ deps, existing.contains (pkgKey d) = true) :
    addDepsLoop existing deps = ([], deps) := by
  induction deps with
  | nil => rfl
  | cons d rest ih =>
    rw [addDepsLoop_cons, if_pos (h d (List.mem_cons_self d rest))]
    rw [ih (fun x hx => h x (List.mem_cons_of_mem d hx))]

lemma addDepsLoop_mem (deps : List (List Char)) (existing : List (List Char)) :
    ∀ d ∈ deps, pkgKey d ∈ existing ∨ pkgKey d ∈ (addDepsLoop existing deps).1.map pkgKey := by
  induction deps generalizing existing with
  | nil =>
    intro d hd
    cases hd
  | cons a rest ih =>
    intro d hd
    by_cases hct : existing.contains (pkgKey a) = true
    · rcases List.mem_cons.mp hd with heq | hd'
      · subst heq
        exact Or.inl (contains_mem.mp hct)
      · rw [addDepsLoop_cons, if_pos hct]
        exact ih existing d hd'
    · rw [addDepsLoop_cons, if_neg hct]
      rcases List.mem_cons.mp hd with heq | hd'
      · subst heq
        exact Or.inr (by simp)
      · rcases ih (existing ++ [pkgKey a]) d hd' with hmem | hmem
        · rcases List.mem_append.mp hmem with hmem' | hmem'
          · exact Or.inl hmem'
          · right
            rw [List.mem_singleton.mp hmem']
            simp
        · exact Or.inr (by rw [List.map_cons]; exact List.mem_cons_of_mem _ hmem)

lemma addDepsLoop_added_subset (deps : List (List Char)) (existing : List (List Char)) :
    ∀ x ∈ (addDepsLoop existing deps).1, x ∈ deps := by
  induction deps generalizing existing with
  | nil =>
    intro x hx
    cases hx
  | cons a rest ih =>
    intro x hx
    rw [addDepsLoop_cons] at hx
    by_cases hct : existing.contains (pkgKey a) = true
    · rw [if_pos hct] at hx
      exact List.mem_cons_of_mem a (ih existing x hx)
    · rw [if_neg hct] at hx
      rcases List.mem_cons.mp hx with heq | hx'
      · rw [heq]
        exact List.mem_cons_self a rest
      · exact List.mem_cons_of_mem a (ih (existing ++ [pkgKey a]) x hx')

/-- Counterexample to claim C9 as stated: a dependency string containing a
newline ("x\ny") is written as two physical lines, whose package-name
prefixes "x" and "y" never match the dependency's own prefix "x\ny", so the
second call appends it again and the file is not byte-identical. -/
theorem add_dependency_idempotent_counterexample :
    (addDependencyToRequirements
        (addDependencyToRequirements [] [['x', '\n', 'y']]).1 [['x', '\n', 'y']]).1
      ≠ (addDependencyToRequirements [] [['x', '\n', 'y']]).1 := by
  decide

/-- Claim C9 (amended): for dependency strings free of line breaks, calling
add_dependency_to_requirements twice with the same list adds each package
at most once — a dependency is skipped whenever a line whose package-name
prefix (the text before "==", ">" or "<", stripped and lower-cased) already
matches — so the second call leaves the file byte-identical.  (A dependency
containing a newline defeats the prefix bookkeeping, as the counterexample
shows.) -/
theorem add_dependency_idempotent (content : List Char) (deps : List (List Char))
    (h : ∀ d ∈ deps, '\n' ∉ d ∧ '\r' ∉ d) :
    (addDependencyToRequirements (addDependencyToRequirements content deps).1 deps).1
      = (addDependencyToRequirements content deps).1 := by
  by_cases hde : deps.isEmpty = true
  · simp [addDependencyToRequirements, hde]
  · have hnl : ∀ d ∈ (addDepsLoop ((pyReadlines content).map pkgKey) deps).1, '\n' ∉ d :=
      fun d hd => (h d (addDepsLoop_added_subset deps _ d hd)).1
    have hc0 : (!(pyReadlines content).isEmpty && !lastEndsNl (pyReadlines content)) = false →
        (content = [] ∨ content.getLast? = some '\n') := by
      intro hff
      rcases Bool.and_eq_false_iff.mp hff with hf | hf
      · left
        by_contra hcne
        have := pyReadlines_ne_nil hcne
        rw [Bool.not_eq_false'] at hf
        exact this (List.isEmpty_iff.mp hf)
      · right
        rw [Bool.not_eq_false'] at hf
        by_contra hlast
        by_cases hcne : content = []
        · rw [hcne] at hf
          simp [pyReadlines, readlinesAux_nil, lastEndsNl] at hf
        · rw [show lastEndsNl (pyReadlines content)
              = lastEndsNl (readlinesAux [] content) from rfl] at hf
          rw [lastEndsNl_of_dangling content [] hcne hlast (by simp)] at hf
          cases hf
    have hc1 : (!(pyReadlines content).isEmpty && !lastEndsNl (pyReadlines content)) = true →
        content ≠ [] := by
      intro htt hcnil
      rw [hcnil] at htt
      simp [pyReadlines, readlinesAux_nil, lastEndsNl] at htt
    obtain ⟨hk1, hk2⟩ := appended_keys
      (!(pyReadlines content).isEmpty && !lastEndsNl (pyReadlines content))
      (addDepsLoop ((pyReadlines content).map pkgKey) deps).1 hnl content hc0 hc1
    have hM : ∀ d ∈ deps,
        pkgKey d ∈ linesKeys ((addDependencyToRequirements content deps).1) := by
      intro d hd
      rw [addDependencyToRequirements, if_neg hde]
      rcases addDepsLoop_mem deps ((pyReadlines content).map pkgKey) d hd with hm | hm
      · exact hk1 (pkgKey d) hm
      · obtain ⟨a, ha, haeq⟩ := List.mem_map.mp hm
        rw [← haeq]
        exact hk2 a ha
    have hskip := addDepsLoop_skip_all deps
      ((pyReadlines (addDependencyToRequirements content deps).1).map pkgKey)
      (fun d hd => contains_mem.mpr (hM d hd))
    conv_lhs => rw [addDependencyToRequirements, if_neg hde]
    rw [hskip]
    rw [appendedText, List.append_nil]

/-- Witness for C9 (amended) at a concrete file and dependency list. -/
theorem add_dependency_idempotent_witness :
    (addDependencyToRequirements
        (addDependencyToRequirements "flask".data ["flask==2.0".data, "numpy".data]).1
        ["flask==2.0".data, "numpy".data]).1
      = (addDependencyToRequirements "flask".data ["flask==2.0".data, "numpy".data]).1 := by
  exact add_dependency_idempotent "flask".data ["flask==2.0".data, "numpy".data] (by decide)

/-! ## JSON values, broadcasts and the planning assembly line (claim C5)

LLM replies are oracle inputs: the raw string (gated on emptiness and the
"Error:" prefix, exactly as the source does) together with the outcome of
DevelopmentTeamService.parse_json_response on it, `none` marking a parse
exception. -/

inductive JVal where
  | jnull
  | jbool (b : Bool)
  | jnum (n : Int)
  | jstr (s : String)
  | jarr (xs : List JVal)
  | jobj (fields : List (String × JVal))
  deriving Repr

/-- Python dict .get(key) on a JSON object; None for a missing key, and
no lookup on non-dicts (callers on non-dicts raise, handled at each call
site). -/
def JVal.get : JVal → String → Option JVal
  | .jobj fields, key => (fields.find? (fun kv => kv.1 == key)).map (fun kv => kv.2)
  | _, _ => none

/-- Python truthiness of a JSON value. -/
def JVal.truthy : JVal → Bool
  | .jnull => false
  | .jbool b => b
  | .jnum n => decide (n ≠ 0)
  | .jstr s => decide (s ≠ "")
  | .jarr xs => !xs.isEmpty
  | .jobj fields => !fields.isEmpty

def JVal.isObj : JVal → Bool
  | .jobj _ => true
  | _ => false

def JVal.isArr : JVal → Bool
  | .jarr _ => true
  | _ => false

/-- Rendering of a JSON value when the source stores it as a task
description or joins it into a prompt string (str() of the Python value;
only the string case is exercised by well-formed plans). -/
def JVal.toDescr : JVal → String
  | .jstr s => s
  | .jnull => "None"
  | .jbool true => "True"
  | .jbool false => "False"
  | .jnum n => toString n
  | .jarr _ => "<list>"
  | .jobj _ => "<dict>"

structure LLMResponse where
  raw : String
  parsed : Option JVal

/-- A broadcast message, reduced to its type discriminator and content. -/
structure Msg where
  mtype : String
  content : String
  deriving Repr, DecidableEq

/-- DevelopmentTeamService._post_chat_message (same body as the
Conductor's post_chat_message): empty or whitespace-only messages are
dropped; the sender "Aura" maps to aura_response unless is_error forces
system_log. -/
def postChatMessage (sender : String) (message : String) (isError : Bool) : List Msg :=
  if (message == "") || (pyStrip message == "") then []
  else if isError then [⟨"system_log", message⟩]
  else if pyLower sender == "aura" then [⟨"aura_response", message⟩]
  else [⟨"system_log", message⟩]

/-- DevelopmentTeamService.handle_error: log plus an is_error chat post. -/
def handleError (message : String) : List Msg :=
  postChatMessage "Aura" message true

/-- The strict `x is True` identity test of the audit verdict. -/
def isTrueVal : Option JVal → Bool
  | some (.jbool true) => true
  | _ => false

/-- DevelopmentTeamService._run_plan_audit: phase broadcast, the gate on
the raw reply, the parse gate, then the strict `audit_passed is True`
check. -/
def runPlanAudit (aud : LLMResponse) : Bool × List Msg :=
  let phase : Msg := ⟨"phase", "Auditor is verifying the plan\x27s correctness..."⟩
  if (aud.raw == "") || pyStartsWith aud.raw "Error:" then
    (false, [phase] ++ handleError
      (if aud.raw == "" then "Auditor returned an empty response." else aud.raw))
  else
    match aud.parsed with
    | none => (false, [phase] ++ handleError "Failed to parse audit JSON.")
    | some v =>
      if isTrueVal (v.get "audit_passed") then (true, [phase])
      else (false, [phase] ++ handleError
          "Audit failed. The Architect\x27s plan was incorrect. Halting mission.")

def joinCommaSpaceS : List String → String
  | [] => ""
  | [d] => d
  | d :: rest => d ++ ", " ++ joinCommaSpaceS rest

/-- Python `", ".join(x)` for the dependency list: joins a list of
strings or the characters of a string or the keys of a dict; anything else
raises TypeError (None marks the raised path). -/
def pyJoinDeps : JVal → Option String
  | .jarr xs =>
    if xs.all (fun x => match x with | .jstr _ => true | _ => false) then
      some (joinCommaSpaceS (xs.map JVal.toDescr))
    else none
  | .jstr s => some (joinCommaSpaceS (s.data.map (fun c => String.mk [c])))
  | .jobj fields => some (joinCommaSpaceS (fields.map (fun kv => kv.1)))
  | _ => none

/-- Outcome of DevelopmentTeamService.run_aura_planner_workflow, with the
effects the claim speaks about made explicit.  `crashed` marks the paths
on which an uncaught exception (AttributeError or TypeError on malformed
JSON shapes) propagates out of the workflow. -/
structure PlannerResult where
  log : MLState
  setInitialPlanCalled : Bool
  sequencerRan : Bool
  crashed : Bool
  broadcasts : List Msg
  deriving Repr, DecidableEq

/-- DevelopmentTeamService.run_aura_planner_workflow over the three LLM
replies (Architect, Auditor, Sequencer) and the current mission log. -/
def runAuraPlannerWorkflow (arch aud seq : LLMResponse) (userIdea : String)
    (log0 : MLState) : PlannerResult :=
  if (arch.raw == "") || pyStartsWith (pyStrip arch.raw) "Error:" then
    ⟨log0, false, false, false, handleError
      (if arch.raw == "" then "Architect AI returned an empty response." else arch.raw)⟩
  else
    match arch.parsed with
    | none => ⟨log0, false, false, false, handleError "Failed to create a valid blueprint."⟩
    | some bd =>
      if bd.isObj = false then
        ⟨log0, false, false, true, []⟩
      else
        match bd.get "final_blueprint" with
        | none => ⟨log0, false, false, false,
            handleError "Failed to create a valid blueprint."⟩
        | some fb =>
          if !fb.truthy || !fb.isObj then
            ⟨log0, false, false, false,
              handleError "Failed to create a valid blueprint."⟩
          else
            match runPlanAudit aud with
            | (false, auditMsgs) => ⟨log0, false, false, false, auditMsgs⟩
            | (true, auditMsgs) =>
              let phase2 : Msg := ⟨"phase", "Sequencer is generating the detailed task list..."⟩
              let pre := auditMsgs ++ [phase2]
              if (seq.raw == "") || pyStartsWith (pyStrip seq.raw) "Error:" then
                ⟨log0, false, true, false, pre ++ handleError
                  (if seq.raw == "" then "Sequencer AI returned an empty response." else seq.raw)⟩
              else
                match seq.parsed with
                | none => ⟨log0, false, true, false,
                    pre ++ handleError "Failed to create a valid plan."⟩
                | some pd =>
                  if !pd.isObj then
                    ⟨log0, false, true, true, pre⟩
                  else
                    let planVal := (pd.get "final_plan").getD (.jarr [])
                    if !planVal.truthy || !planVal.isArr then
                      ⟨log0, false, true, false,
                        pre ++ handleError "Failed to create a valid plan."⟩
                    else
                      match planVal with
                      | .jarr steps =>
                        let deps := (fb.get "dependencies").getD (.jarr [])
                        if deps.truthy then
                          match pyJoinDeps deps with
                          | none => ⟨log0, false, true, true, pre⟩
                          | some ds =>
                            let stepStrs :=
                              ("Add the following dependencies to requirements.txt: " ++ ds)
                                :: steps.map JVal.toDescr
                            ⟨setInitialPlan log0 userIdea stepStrs, true, true, false,
                              pre ++ postChatMessage "Aura"
                                "Plan approved by Auditor. Review in \x27Agent TODO\x27 and dispatch to begin." false⟩
                        else
                          ⟨setInitialPlan log0 userIdea (steps.map JVal.toDescr), true, true, false,
                            pre ++ postChatMessage "Aura"
                              "Plan approved by Auditor. Review in \x27Agent TODO\x27 and dispatch to begin." false⟩
                      | _ => ⟨log0, false, true, true, pre⟩

/-! ### Claim C5: a failed audit aborts the planning workflow -/

lemma mem_dropWhile_of_not {p : Char → Bool} {c : Char} {l : List Char}
    (hm : c ∈ l) (hp : p c = false) : c ∈ l.dropWhile p := by
  induction l with
  | nil => cases hm
  | cons a rest ih =>
    rw [List.dropWhile_cons]
    by_cases ha : p a = true
    · rw [if_pos ha]
      rcases List.mem_cons.mp hm with heq | hm'
      · rw [heq] at hp
        rw [hp] at ha
        cases ha
      · exact ih hm'
    · rw [if_neg ha]
      exact hm

lemma stripL_ne_nil_of_mem {c : Char} {l : List Char}
    (hm : c ∈ l) (hp : isPySpace c = false) : stripL l ≠ [] := by
  rw [stripL]
  intro he
  have h1 : c ∈ l.dropWhile isPySpace := mem_dropWhile_of_not hm hp
  have h2 : c ∈ (l.dropWhile isPySpace).reverse := List.mem_reverse.mpr h1
  have h3 : c ∈ ((l.dropWhile isPySpace).reverse.dropWhile isPySpace) :=
    mem_dropWhile_of_not h2 hp
  have h4 : c ∈ ((l.dropWhile isPySpace).reverse.dropWhile isPySpace).reverse :=
    List.mem_reverse.mpr h3
  rw [he] at h4
  cases h4

lemma pyStrip_error_ne {s : String} (h : pyStartsWith s "Error:" = true) :
    (pyStrip s == "") = false := by
  rw [pyStartsWith] at h
  have hpre : "Error:".data <+: s.data := List.isPrefixOf_iff_prefix.mp h
  obtain ⟨t, ht⟩ := hpre
  have hmem : 'E' ∈ s.data := by
    rw [← ht]
    exact List.mem_append_left _ (by decide)
  have hne := stripL_ne_nil_of_mem hmem (by decide)
  have hps : pyStrip s = ⟨stripL s.data⟩ := rfl
  rw [hps]
  cases hs : stripL s.data with
  | nil => exact absurd hs hne
  | cons a l =>
    rw [beq_eq_false_iff_ne]
    intro hcontra
    have hdata : a :: l = ([] : List Char) := congrArg String.data hcontra
    cases hdata

lemma postChatMessage_error_mem {message : String}
    (h : (message == "") = false ∧ (pyStrip message == "") = false) :
    postChatMessage "Aura" message true = [⟨"system_log", message⟩] := by
  rw [postChatMessage, h.1, h.2]
  rfl

/-- The audit gate on the raw reply being hit still yields a rejection
with a user-visible system_log broadcast. -/
lemma runPlanAudit_gate {aud : LLMResponse}
    (h : ((aud.raw == "") || pyStartsWith aud.raw "Error:") = true) :
    (runPlanAudit aud).1 = false ∧
    ∃ m ∈ (runPlanAudit aud).2, m.mtype = "system_log" := by
  rw [runPlanAudit]
  rw [if_pos h]
  refine ⟨rfl, ?_⟩
  by_cases he : (aud.raw == "") = true
  · rw [if_pos he, handleError,
      postChatMessage_error_mem (by constructor <;> decide)]
    exact ⟨⟨"system_log", "Auditor returned an empty response."⟩, by simp, rfl⟩
  · have hsw : pyStartsWith aud.raw "Error:" = true := by
      rcases Bool.or_eq_true_iff.mp h with h' | h'
      · exact absurd h' he
      · exact h'
    rw [if_neg he, handleError,
      postChatMessage_error_mem ⟨by simpa using he, pyStrip_error_ne hsw⟩]
    exact ⟨⟨"system_log", aud.raw⟩, by simp, rfl⟩

/-- The spec-side statement of an auditor rejection: the call errored, the
reply was empty or unparseable, or the verdict's audit_passed is anything
but the JSON literal true. -/
def AuditorRejects (aud : LLMResponse) : Prop :=
  aud.raw = "" ∨ pyStartsWith aud.raw "Error:" = true ∨ aud.parsed = none ∨
  ∃ v, aud.parsed = some v ∧ v.get "audit_passed" ≠ some (.jbool true)

lemma isTrueVal_false {o : Option JVal} (h : o ≠ some (.jbool true)) :
    isTrueVal o = false := by
  cases o with
  | none => rfl
  | some v =>
    cases v with
    | jnull => rfl
    | jbool b =>
      cases b with
      | true => exact absurd rfl h
      | false => rfl
    | jnum n => rfl
    | jstr s => rfl
    | jarr xs => rfl
    | jobj fields => rfl

lemma runPlanAudit_rejects {aud : LLMResponse} (hR : AuditorRejects aud) :
    (runPlanAudit aud).1 = false ∧
    ∃ m ∈ (runPlanAudit aud).2, m.mtype = "system_log" := by
  by_cases hg : ((aud.raw == "") || pyStartsWith aud.raw "Error:") = true
  · exact runPlanAudit_gate hg
  · have hgf : ((aud.raw == "") || pyStartsWith aud.raw "Error:") = false := by
      simpa using hg
    rw [runPlanAudit, if_neg (by rw [hgf]; simp)]
    rcases hR with h | h | h | ⟨v, hv, hne⟩
    · exfalso
      rw [h] at hgf
      simp at hgf
    · exfalso
      rw [h] at hgf
      simp at hgf
    · constructor
      · simp only [h]
      · simp only [h]
        rw [handleError, postChatMessage_error_mem (by constructor <;> decide)]
        exact ⟨⟨"system_log", "Failed to parse audit JSON."⟩, by simp, rfl⟩
    · have hit := isTrueVal_false hne
      constructor
      · simp [hv, hit]
      · simp only [hv, hit, Bool.false_eq_true, if_false]
        rw [handleError, postChatMessage_error_mem (by constructor <;> decide)]
        refine ⟨⟨"system_log", "Audit failed. The Architect\x27s plan was incorrect. Halting mission."⟩, by simp, rfl⟩

/-- The spec-side statement of the architect stage succeeding (the
workflow reaches the audit). -/
def ArchitectAccepted (arch : LLMResponse) : Prop :=
  (arch.raw == "") = false ∧ pyStartsWith (pyStrip arch.raw) "Error:" = false ∧
  ∃ fields fb, arch.parsed = some (.jobj fields) ∧
    (JVal.jobj fields).get "final_blueprint" = some fb ∧
    fb.truthy = true ∧ fb.isObj = true

/-- Claim C5: whenever the Auditor verdict is not audit_passed = true (or
the auditor call errors or its reply cannot be parsed), the planning
workflow aborts with a user-visible system_log failure: the Sequencer is
never invoked, set_initial_plan is never called, and the mission log is
left exactly as it was. -/
theorem auditor_failure_aborts_planning (arch aud seq : LLMResponse)
    (userIdea : String) (log0 : MLState)
    (hA : ArchitectAccepted arch) (hR : AuditorRejects aud) :
    (runAuraPlannerWorkflow arch aud seq userIdea log0).log = log0 ∧
    (runAuraPlannerWorkflow arch aud seq userIdea log0).sequencerRan = false ∧
    (runAuraPlannerWorkflow arch aud seq userIdea log0).setInitialPlanCalled = false ∧
    ∃ m ∈ (runAuraPlannerWorkflow arch aud seq userIdea log0).broadcasts,
      m.mtype = "system_log" := by
  obtain ⟨h1, h2, fields, fb, hparsed, hfb, htr, hio⟩ := hA
  obtain ⟨hafst, m, hm, hmty⟩ := runPlanAudit_rejects hR
  have hsplit : runPlanAudit aud = (false, (runPlanAudit aud).2) := by
    rw [← hafst]
  have hred : runAuraPlannerWorkflow arch aud seq userIdea log0
      = ⟨log0, false, false, false, (runPlanAudit aud).2⟩ := by
    rw [runAuraPlannerWorkflow]
    rw [if_neg (by rw [h1, h2]; simp)]
    simp only [hparsed]
    rw [if_neg (by simp [JVal.isObj])]
    simp only [hfb]
    rw [if_neg (by rw [htr, hio]; simp)]
    rw [hsplit]
  rw [hred]
  exact ⟨rfl, rfl, rfl, m, hm, hmty⟩

/-- Witness for C5: a concrete architect blueprint accepted, a concrete
auditor verdict audit_passed = false, a fresh mission log. -/
theorem auditor_failure_aborts_planning_witness :
    (runAuraPlannerWorkflow
        ⟨"ok", some (.jobj [("final_blueprint", .jobj [("summary", .jstr "s")])])⟩
        ⟨"ok", some (.jobj [("audit_passed", .jbool false)])⟩
        ⟨"ok", some (.jobj [("final_plan", .jarr [.jstr "step"])])⟩
        "goal" MLState.fresh).log = MLState.fresh ∧
    (runAuraPlannerWorkflow
        ⟨"ok", some (.jobj [("final_blueprint", .jobj [("summary", .jstr "s")])])⟩
        ⟨"ok", some (.jobj [("audit_passed", .jbool false)])⟩
        ⟨"ok", some (.jobj [("final_plan", .jarr [.jstr "step"])])⟩
        "goal" MLState.fresh).sequencerRan = false := by
  have h := auditor_failure_aborts_planning
    ⟨"ok", some (.jobj [("final_blueprint", .jobj [("summary", .jstr "s")])])⟩
    ⟨"ok", some (.jobj [("audit_passed", .jbool false)])⟩
    ⟨"ok", some (.jobj [("final_plan", .jarr [.jstr "step"])])⟩
    "goal" MLState.fresh
    ⟨by decide, by decide, [("final_blueprint", .jobj [("summary", .jstr "s")])],
      .jobj [("summary", .jstr "s")], rfl, rfl, rfl, rfl⟩
    (Or.inr (Or.inr (Or.inr ⟨.jobj [("audit_passed", .jbool false)], rfl, by simp [JVal.get]⟩)))
  exact ⟨h.1, h.2.1⟩

/-! ## The Mission Conductor (claims C3, C4)

ConductorService.execute_mission, embedded as a fuel-indexed loop over an
oracle environment: tool-selection outcomes and tool results per global
attempt counter, re-planner replies per global replan counter, and the
Mission Control flag as a poll schedule (every is_mission_running call
reads index pollIdx and advances it; request_mission_stop makes every poll
from some index on return False, and nothing sets it back to True during a
mission).  Broadcasts accumulate in the state.  The cooperative model makes
a tool invocation atomic: once an attempt's oracle is consulted, its result
is processed before any further poll, which is exactly the source's
behaviour of never cancelling an in-flight await. -/

inductive AttemptOracle where
  | noCall
  | result (r : ToolResult)

structure ConductorEnv where
  attempt : Nat → AttemptOracle
  replanReply : Nat → LLMResponse
  summaryReply : String
  stopAfter : Option Nat

/-- is_mission_running at the given poll index. -/
def pollRunning (env : ConductorEnv) (pollIdx : Nat) : Bool :=
  match env.stopAfter with
  | none => true
  | some n => decide (pollIdx < n)

structure CState where
  log : MLState
  attemptIdx : Nat
  replanIdx : Nat
  pollIdx : Nat
  broadcasts : List Msg
  deriving Repr, DecidableEq

def CState.poll (st : CState) : CState :=
  ⟨st.log, st.attemptIdx, st.replanIdx, st.pollIdx + 1, st.broadcasts⟩

def CState.nextAttempt (st : CState) : CState :=
  ⟨st.log, st.attemptIdx + 1, st.replanIdx, st.pollIdx, st.broadcasts⟩

def CState.nextReplan (st : CState) : CState :=
  ⟨st.log, st.attemptIdx, st.replanIdx + 1, st.pollIdx, st.broadcasts⟩

def CState.withLog (st : CState) (l : MLState) : CState :=
  ⟨l, st.attemptIdx, st.replanIdx, st.pollIdx, st.broadcasts⟩

def CState.emit (st : CState) (ms : List Msg) : CState :=
  ⟨st.log, st.attemptIdx, st.replanIdx, st.pollIdx, st.broadcasts ++ ms⟩

/-- `current_task['last_error'] = msg`: the task dicts are shared with the
mission-log list, so the write lands in the log state. -/
def setLastError (log : MLState) (taskId : Nat) (msg : String) : MLState :=
  ⟨log.tasks.map (fun t =>
      if t.id == taskId then ⟨t.id, t.description, t.done, t.toolCall, some msg⟩ else t),
    log.nextId, log.goal, log.disk⟩

/-- Iterating a Python value with `for step in x`: lists yield elements,
strings yield characters, dicts yield keys; anything else raises TypeError
(None marks the raised path). -/
def iterSteps : JVal → Option (List String)
  | .jarr xs => some (xs.map JVal.toDescr)
  | .jstr s => some (s.data.map (fun c => String.mk [c]))
  | .jobj fields => some (fields.map (fun kv => kv.1))
  | _ => none

/-- DevelopmentTeamService.run_strategic_replan: gates on the re-planner
reply, then replace_tasks_from_id on the failing task id.  The Bool marks
an uncaught exception (AttributeError on a non-dict reply, TypeError when
iterating a non-iterable plan — the latter after replace_tasks_from_id has
already truncated the in-memory list without saving). -/
def runStrategicReplan (reply : LLMResponse) (failedTaskId : Nat) (log : MLState) :
    MLState × List Msg × Bool :=
  if (reply.raw == "") || pyStartsWith reply.raw "Error:" then
    (log, handleError
      (if reply.raw == "" then "Re-planner returned an empty response." else reply.raw), false)
  else
    match reply.parsed with
    | none => (log, handleError "I failed to create a valid recovery plan.", false)
    | some v =>
      if !v.isObj then (log, [], true)
      else
        if !((v.get "plan").getD (.jarr [])).truthy then
          (log, handleError "I failed to create a valid recovery plan.", false)
        else
          match iterSteps ((v.get "plan").getD (.jarr [])) with
          | some steps =>
            (replaceTasksFromId log failedTaskId steps,
              postChatMessage "Aura" "I have a new plan. Resuming execution." false, false)
          | none =>
            match findTaskIdx log.tasks failedTaskId with
            | none =>
              (log, postChatMessage "Aura" "I have a new plan. Resuming execution." false, false)
            | some idx => (⟨log.tasks.take idx, log.nextId, log.goal, log.disk⟩, [], true)

def MAX_RETRIES_PER_TASK : Nat := 1

/-- The inner `while retry_count <= MAX_RETRIES_PER_TASK` loop of
execute_mission, recursing on the remaining loop entries (budget =
MAX_RETRIES_PER_TASK + 1 - retry_count).  Returns the state and
task_succeeded. -/
def retryLoop (env : ConductorEnv) (taskId : Nat) (desc : String) :
    Nat → CState → CState × Bool
  | 0, st => (st, false)
  | budget + 1, st =>
    if pollRunning env st.pollIdx then
      match env.attempt st.poll.attemptIdx with
      | .noCall =>
        retryLoop env taskId desc budget
          ((st.poll.nextAttempt).withLog
            (setLastError st.log taskId
              ("Could not determine a tool call for task: \x27" ++ desc ++ "\x27")))
      | .result r =>
        if (isResultAnError r).1 then
          retryLoop env taskId desc budget
            ((((st.poll.nextAttempt).withLog
                (setLastError st.log taskId ((isResultAnError r).2.getD ""))).emit
              (postChatMessage "Conductor"
                ("Task failed, retrying. Error: " ++ (isResultAnError r).2.getD "") true)))
        else
          ((((st.poll.nextAttempt).withLog (markTaskAsDone st.log taskId).1).emit
            (postChatMessage "Conductor" ("Task completed: " ++ desc) false)), true)
    else
      (st.poll, false)

inductive MissionOutcome where
  | halted
  | completed
  | failed
  | fuelOut
  deriving Repr, DecidableEq

/-- generate_mission_summary: the stripped reply, or the fallback. -/
def missionSummary (reply : String) : String :=
  if (pyStrip reply == "") then "Mission accomplished!" else pyStrip reply

/-- One pass of execute_mission's outer `while True` body.  `none` as the
second component means the loop continues with the new state. -/
def conductorIteration (env : ConductorEnv) (st : CState) : CState × Option MissionOutcome :=
  if pollRunning env st.pollIdx then
    match (st.poll.log.tasks.filter (fun t => !t.done)) with
    | [] =>
      ((st.poll.emit (postChatMessage "Aura" (missionSummary env.summaryReply) false
          ++ [⟨"mission_success", ""⟩])), some .completed)
    | t :: _ =>
      let st1 := st.poll.emit [⟨"active_task_updated", toString t.id⟩]
      match retryLoop env t.id t.description (MAX_RETRIES_PER_TASK + 1) st1 with
      | (st2, true) => (st2, none)
      | (st2, false) =>
        if pollRunning env st2.pollIdx then
          match runStrategicReplan (env.replanReply st2.replanIdx) t.id st2.poll.log with
          | (log2, msgs, crashed) =>
            let st3 := (((st2.poll.emit
                (postChatMessage "Aura" "I\x27m stuck. Rethinking my approach." true)).withLog
                  log2).nextReplan).emit msgs
            if crashed then ((st3.emit [⟨"mission_failure", ""⟩]), some .failed)
            else (st3, none)
        else
          (st2.poll, none)
  else
    ((st.poll.emit (postChatMessage "Conductor" "Mission execution halted by user." false)),
      some .halted)

/-- execute_mission's outer loop, fuel-indexed. -/
def executeMissionLoop (env : ConductorEnv) : Nat → CState → CState × MissionOutcome
  | 0, st => (st, .fuelOut)
  | fuel + 1, st =>
    match conductorIteration env st with
    | (st', some out) => (st', out)
    | (st', none) => executeMissionLoop env fuel st'

/-- ConductorService.execute_mission: dispatch narration and thinking
status, then the loop. -/
def executeMission (env : ConductorEnv) (fuel : Nat) (log0 : MLState) :
    CState × MissionOutcome :=
  executeMissionLoop env fuel
    ⟨log0, 0, 0, 0,
      postChatMessage "Conductor" "Mission dispatched. Beginning autonomous execution." false
        ++ [⟨"agent_status", "thinking"⟩]⟩

/-- ConductorService.execute_mission_in_background: the finally-block
always broadcasts agent_status idle when the mission ends. -/
def executeMissionInBackground (env : ConductorEnv) (fuel : Nat) (log0 : MLState) :
    CState × MissionOutcome :=
  ((executeMission env fuel log0).1.emit [⟨"agent_status", "idle"⟩],
    (executeMission env fuel log0).2)

/-! ### Projection lemmas for the conductor state -/

@[simp] lemma poll_log (st : CState) : st.poll.log = st.log := rfl

@[simp] lemma poll_attemptIdx (st : CState) : st.poll.attemptIdx = st.attemptIdx := rfl

@[simp] lemma poll_replanIdx (st : CState) : st.poll.replanIdx = st.replanIdx := rfl

@[simp] lemma poll_pollIdx (st : CState) : st.poll.pollIdx = st.pollIdx + 1 := rfl

@[simp] lemma poll_broadcasts (st : CState) : st.poll.broadcasts = st.broadcasts := rfl

@[simp] lemma nextAttempt_log (st : CState) : st.nextAttempt.log = st.log := rfl

@[simp] lemma nextAttempt_attemptIdx (st : CState) :
    st.nextAttempt.attemptIdx = st.attemptIdx + 1 := rfl

@[simp] lemma nextAttempt_replanIdx (st : CState) : st.nextAttempt.replanIdx = st.replanIdx := rfl

@[simp] lemma nextAttempt_pollIdx (st : CState) : st.nextAttempt.pollIdx = st.pollIdx := rfl

@[simp] lemma nextAttempt_broadcasts (st : CState) :
    st.nextAttempt.broadcasts = st.broadcasts := rfl

@[simp] lemma nextReplan_log (st : CState) : st.nextReplan.log = st.log := rfl

@[simp] lemma nextReplan_attemptIdx (st : CState) :
    st.nextReplan.attemptIdx = st.attemptIdx := rfl

@[simp] lemma nextReplan_replanIdx (st : CState) :
    st.nextReplan.replanIdx = st.replanIdx + 1 := rfl

@[simp] lemma nextReplan_pollIdx (st : CState) : st.nextReplan.pollIdx = st.pollIdx := rfl

@[simp] lemma nextReplan_broadcasts (st : CState) :
    st.nextReplan.broadcasts = st.broadcasts := rfl

@[simp] lemma withLog_log (st : CState) (l : MLState) : (st.withLog l).log = l := rfl

@[simp] lemma withLog_attemptIdx (st : CState) (l : MLState) :
    (st.withLog l).attemptIdx = st.attemptIdx := rfl

@[simp] lemma withLog_replanIdx (st : CState) (l : MLState) :
    (st.withLog l).replanIdx = st.replanIdx := rfl

@[simp] lemma withLog_pollIdx (st : CState) (l : MLState) :
    (st.withLog l).pollIdx = st.pollIdx := rfl

@[simp] lemma withLog_broadcasts (st : CState) (l : MLState) :
    (st.withLog l).broadcasts = st.broadcasts := rfl

@[simp] lemma emit_log (st : CState) (ms : List Msg) : (st.emit ms).log = st.log := rfl

@[simp] lemma emit_attemptIdx (st : CState) (ms : List Msg) :
    (st.emit ms).attemptIdx = st.attemptIdx := rfl

@[simp] lemma emit_replanIdx (st : CState) (ms : List Msg) :
    (st.emit ms).replanIdx = st.replanIdx := rfl

@[simp] lemma emit_pollIdx (st : CState) (ms : List Msg) :
    (st.emit ms).pollIdx = st.pollIdx := rfl

@[simp] lemma emit_broadcasts (st : CState) (ms : List Msg) :
    (st.emit ms).broadcasts = st.broadcasts ++ ms := rfl

/-! ### Claim C3: two attempts per task, one re-plan on double failure -/

lemma retryLoop_attempt_bound (env : ConductorEnv) (tid : Nat) (d : String) :
    ∀ (b : Nat) (st : CState),
      (retryLoop env tid d b st).1.attemptIdx ≤ st.attemptIdx + b := by
  intro b
  induction b with
  | zero =>
    intro st
    exact Nat.le_of_eq rfl
  | succ n ih =>
    intro st
    rw [retryLoop]
    by_cases hp : pollRunning env st.pollIdx = true
    · rw [if_pos hp]
      cases hA : env.attempt st.poll.attemptIdx with
      | noCall =>
        show (retryLoop env tid d n ((st.poll.nextAttempt).withLog
            (setLastError st.log tid
              ("Could not determine a tool call for task: \x27" ++ d ++ "\x27")))).1.attemptIdx
          ≤ st.attemptIdx + (n + 1)
        have h := ih ((st.poll.nextAttempt).withLog
          (setLastError st.log tid ("Could not determine a tool call for task: \x27" ++ d ++ "\x27")))
        simp only [withLog_attemptIdx, nextAttempt_attemptIdx, poll_attemptIdx] at h
        omega
      | result r =>
        show (if (isResultAnError r).1 = true then
            retryLoop env tid d n
              ((((st.poll.nextAttempt).withLog
                  (setLastError st.log tid ((isResultAnError r).2.getD ""))).emit
                (postChatMessage "Conductor"
                  ("Task failed, retrying. Error: " ++ (isResultAnError r).2.getD "") true)))
          else
            ((((st.poll.nextAttempt).withLog (markTaskAsDone st.log tid).1).emit
              (postChatMessage "Conductor" ("Task completed: " ++ d) false)),
              true)).1.attemptIdx ≤ st.attemptIdx + (n + 1)
        by_cases he : (isResultAnError r).1 = true
        · rw [if_pos he]
          have h := ih ((((st.poll.nextAttempt).withLog
              (setLastError st.log tid ((isResultAnError r).2.getD ""))).emit
            (postChatMessage "Conductor"
              ("Task failed, retrying. Error: " ++ (isResultAnError r).2.getD "") true)))
          simp only [emit_attemptIdx, withLog_attemptIdx, nextAttempt_attemptIdx,
            poll_attemptIdx] at h
          omega
        · rw [if_neg he]
          simp only [emit_attemptIdx, withLog_attemptIdx, nextAttempt_attemptIdx,
            poll_attemptIdx]
          omega
    · rw [if_neg hp]
      simp only [poll_attemptIdx]
      omega

/-- Claim C3: the Conductor attempts a task at most MAX_RETRIES_PER_TASK +
1 = 2 times, and when the tool execution fails on both attempts while the
mission is still running, the handling of that task invokes exactly one
strategic re-plan, which (when the re-planner returns a nonempty plan
list) replaces the mission-log suffix starting at the failing task's id
with the new steps. -/
theorem conductor_two_attempts_one_replan
    (env : ConductorEnv) (st : CState) (t : MLTask) (rest : List MLTask)
    (hstop : env.stopAfter = none)
    (hp : st.log.tasks.filter (fun u => !u.done) = t :: rest)
    (r1 r2 : ToolResult)
    (h1 : env.attempt st.attemptIdx = .result r1)
    (he1 : (isResultAnError r1).1 = true)
    (h2 : env.attempt (st.attemptIdx + 1) = .result r2)
    (he2 : (isResultAnError r2).1 = true)
    (reply : LLMResponse) (flds : List (String × JVal)) (stepVals : List JVal)
    (hrr : env.replanReply st.replanIdx = reply)
    (hraw1 : (reply.raw == "") = false)
    (hraw2 : pyStartsWith reply.raw "Error:" = false)
    (hpar : reply.parsed = some (.jobj flds))
    (hplan : (JVal.jobj flds).get "plan" = some (.jarr stepVals))
    (hsne : stepVals ≠ []) :
    (∀ (tid : Nat) (d : String) (s : CState),
      (retryLoop env tid d (MAX_RETRIES_PER_TASK + 1) s).1.attemptIdx
        ≤ s.attemptIdx + (MAX_RETRIES_PER_TASK + 1)) ∧
    (conductorIteration env st).1.attemptIdx = st.attemptIdx + 2 ∧
    (conductorIteration env st).1.replanIdx = st.replanIdx + 1 ∧
    (conductorIteration env st).2 = none ∧
    (conductorIteration env st).1.log
      = replaceTasksFromId
          (setLastError (setLastError st.log t.id ((isResultAnError r1).2.getD ""))
            t.id ((isResultAnError r2).2.getD ""))
          t.id (stepVals.map JVal.toDescr) := by
  have hpr : ∀ k, pollRunning env k = true := by
    intro k
    rw [pollRunning, hstop]
  have hie : stepVals.isEmpty = false := by
    cases stepVals with
    | nil => exact absurd rfl hsne
    | cons a l => rfl
  have hM1 : MAX_RETRIES_PER_TASK = 0 + 1 := rfl
  refine ⟨fun tid d s => retryLoop_attempt_bound env tid d (MAX_RETRIES_PER_TASK + 1) s,
    ?_, ?_, ?_, ?_⟩ <;>
  simp only [conductorIteration, hpr, eq_self_iff_true, if_true, poll_log, hp, hM1,
    retryLoop, emit_log, withLog_log, nextAttempt_log, emit_attemptIdx,
    withLog_attemptIdx, nextAttempt_attemptIdx, poll_attemptIdx, emit_replanIdx,
    withLog_replanIdx, nextAttempt_replanIdx, nextReplan_replanIdx, poll_replanIdx,
    emit_pollIdx, withLog_pollIdx, nextAttempt_pollIdx, nextReplan_pollIdx,
    nextReplan_log, nextReplan_attemptIdx, poll_pollIdx, h1, he1, h2, he2, hrr,
    runStrategicReplan, hraw1, hraw2, Bool.false_or, Bool.or_self, Bool.false_eq_true,
    if_false, hpar, JVal.isObj, JVal.truthy, Bool.not_true, Bool.not_not, hplan,
    Option.getD_some, hie, iterSteps]

def tW : MLTask := ⟨1, "write file", false, none, none⟩

def cEnvW : ConductorEnv :=
  ⟨fun k => if k == 0 then .result (.pystr "Error: boom") else .result (.pystr "Error: worse"),
    fun _ => ⟨"plan-raw", some (.jobj [("plan", .jarr [.jstr "step one"])])⟩,
    "", none⟩

def cStW : CState := ⟨⟨[tW], 2, "g", [tW]⟩, 0, 0, 0, []⟩

theorem conductor_two_attempts_one_replan_witness :
    (conductorIteration cEnvW cStW).1.attemptIdx = cStW.attemptIdx + 2 ∧
    (conductorIteration cEnvW cStW).1.replanIdx = cStW.replanIdx + 1 ∧
    (conductorIteration cEnvW cStW).2 = none := by
  have h := conductor_two_attempts_one_replan cEnvW cStW tW []
    rfl (by decide) (.pystr "Error: boom") (.pystr "Error: worse")
    rfl (by decide) rfl (by decide)
    ⟨"plan-raw", some (.jobj [("plan", .jarr [.jstr "step one"])])⟩
    [("plan", .jarr [.jstr "step one"])] [.jstr "step one"]
    rfl (by decide) (by decide) rfl rfl (List.cons_ne_nil _ _)
  exact ⟨h.2.1, h.2.2.1, h.2.2.2.1⟩

/-! ### Claim C4: stop requests -/

lemma postChatMessage_types (sender msg : String) (err : Bool) :
    ∀ m ∈ postChatMessage sender msg err,
      m.mtype = "system_log" ∨ m.mtype = "aura_response" := by
  intro m hm
  rw [postChatMessage] at hm
  by_cases h1 : ((msg == "") || (pyStrip msg == "")) = true
  · rw [if_pos h1] at hm
    exact absurd hm (List.not_mem_nil m)
  · rw [if_neg h1] at hm
    by_cases h2 : err = true
    · rw [if_pos h2] at hm
      rw [List.mem_singleton.mp hm]
      exact Or.inl rfl
    · rw [if_neg h2] at hm
      by_cases h3 : (pyLower sender == "aura") = true
      · rw [if_pos h3] at hm
        rw [List.mem_singleton.mp hm]
        exact Or.inr rfl
      · rw [if_neg h3] at hm
        rw [List.mem_singleton.mp hm]
        exact Or.inl rfl

lemma postChatMessage_conductor (msg : String) (err : Bool) :
    ∀ m ∈ postChatMessage "Conductor" msg err, m.mtype = "system_log" := by
  intro m hm
  rcases postChatMessage_types "Conductor" msg err m hm with h | h
  · exact h
  · exfalso
    rw [postChatMessage] at hm
    by_cases h1 : ((msg == "") || (pyStrip msg == "")) = true
    · rw [if_pos h1] at hm
      exact List.not_mem_nil m hm
    · rw [if_neg h1] at hm
      by_cases h2 : err = true
      · rw [if_pos h2] at hm
        have := List.mem_singleton.mp hm
        rw [this] at h
        simp at h
      · rw [if_neg h2] at hm
        rw [if_neg (show ¬((pyLower "Conductor" == "aura") = true) from by decide)] at hm
        have := List.mem_singleton.mp hm
        rw [this] at h
        simp at h

lemma runStrategicReplan_types (reply : LLMResponse) (tid : Nat) (log : MLState) :
    ∀ m ∈ (runStrategicReplan reply tid log).2.1,
      m.mtype = "system_log" ∨ m.mtype = "aura_response" := by
  intro m hm
  rw [runStrategicReplan] at hm
  split at hm
  · exact postChatMessage_types "Aura"
      (if reply.raw == "" then "Re-planner returned an empty response." else reply.raw)
      true m hm
  · split at hm
    · exact postChatMessage_types "Aura" "I failed to create a valid recovery plan." true m hm
    · split at hm
      · exact absurd hm (List.not_mem_nil m)
      · split at hm
        · exact postChatMessage_types "Aura" "I failed to create a valid recovery plan."
            true m hm
        · split at hm
          · exact postChatMessage_types "Aura" "I have a new plan. Resuming execution."
              false m hm
          · split at hm
            · exact postChatMessage_types "Aura" "I have a new plan. Resuming execution."
                false m hm
            · exact absurd hm (List.not_mem_nil m)

lemma retryLoop_broadcasts (env : ConductorEnv) (tid : Nat) (d : String) :
    ∀ (b : Nat) (st : CState), ∃ new : List Msg,
      (retryLoop env tid d b st).1.broadcasts = st.broadcasts ++ new ∧
      ∀ m ∈ new, m.mtype = "system_log" := by
  intro b
  induction b with
  | zero =>
    intro st
    exact ⟨[], (List.append_nil _).symm, fun m hm => absurd hm (List.not_mem_nil m)⟩
  | succ n ih =>
    intro st
    rw [retryLoop]
    by_cases hp : pollRunning env st.pollIdx = true
    · rw [if_pos hp]
      cases hA : env.attempt st.poll.attemptIdx with
      | noCall =>
        obtain ⟨new, hb, ht⟩ := ih ((st.poll.nextAttempt).withLog
          (setLastError st.log tid
            ("Could not determine a tool call for task: \x27" ++ d ++ "\x27")))
        exact ⟨new, hb, ht⟩
      | result r =>
        show ∃ new : List Msg,
          (if (isResultAnError r).1 = true then
            retryLoop env tid d n
              ((((st.poll.nextAttempt).withLog
                  (setLastError st.log tid ((isResultAnError r).2.getD ""))).emit
                (postChatMessage "Conductor"
                  ("Task failed, retrying. Error: " ++ (isResultAnError r).2.getD "") true)))
          else
            ((((st.poll.nextAttempt).withLog (markTaskAsDone st.log tid).1).emit
              (postChatMessage "Conductor" ("Task completed: " ++ d) false)),
              true)).1.broadcasts = st.broadcasts ++ new ∧
          ∀ m ∈ new, m.mtype = "system_log"
        by_cases he : (isResultAnError r).1 = true
        · rw [if_pos he]
          obtain ⟨new, hb, ht⟩ := ih ((((st.poll.nextAttempt).withLog
              (setLastError st.log tid ((isResultAnError r).2.getD ""))).emit
            (postChatMessage "Conductor"
              ("Task failed, retrying. Error: " ++ (isResultAnError r).2.getD "") true)))
          refine ⟨postChatMessage "Conductor"
              ("Task failed, retrying. Error: " ++ (isResultAnError r).2.getD "") true ++ new,
            ?_, ?_⟩
          · rw [hb]
            simp only [emit_broadcasts, withLog_broadcasts, nextAttempt_broadcasts,
              poll_broadcasts, List.append_assoc]
          · intro m hm
            rcases List.mem_append.mp hm with h1 | h2
            · exact postChatMessage_conductor _ true m h1
            · exact ht m h2
        · rw [if_neg he]
          refine ⟨postChatMessage "Conductor" ("Task completed: " ++ d) false, ?_, ?_⟩
          · simp only [emit_broadcasts, withLog_broadcasts, nextAttempt_broadcasts,
              poll_broadcasts]
          · exact postChatMessage_conductor _ false
    · rw [if_neg hp]
      exact ⟨[], (List.append_nil _).symm, fun m hm => absurd hm (List.not_mem_nil m)⟩

lemma conductorIteration_spec (env : ConductorEnv) (st : CState) :
    ∃ new : List Msg,
      (conductorIteration env st).1.broadcasts = st.broadcasts ++ new ∧
      ((conductorIteration env st).2 ≠ some .completed →
        ∀ m ∈ new, m.mtype ≠ "mission_success") ∧
      ((conductorIteration env st).2 = some .halted →
        Msg.mk "system_log" "Mission execution halted by user." ∈ new) := by
  rw [conductorIteration]
  by_cases hp : pollRunning env st.pollIdx = true
  · rw [if_pos hp]
    cases hT : st.poll.log.tasks.filter (fun t => !t.done) with
    | nil =>
      refine ⟨postChatMessage "Aura" (missionSummary env.summaryReply) false
          ++ [⟨"mission_success", ""⟩], ?_, ?_, ?_⟩
      · rfl
      · intro h
        exact absurd rfl h
      · intro h
        exact MissionOutcome.noConfusion (Option.some.inj h)
    | cons t ts =>
      obtain ⟨⟨st2, succ⟩, hR⟩ : ∃ p, retryLoop env t.id t.description
          (MAX_RETRIES_PER_TASK + 1) (st.poll.emit [⟨"active_task_updated", toString t.id⟩]) = p :=
        ⟨_, rfl⟩
      obtain ⟨newR, hbR, htR⟩ := retryLoop_broadcasts env t.id t.description
        (MAX_RETRIES_PER_TASK + 1) (st.poll.emit [⟨"active_task_updated", toString t.id⟩])
      rw [hR] at hbR
      simp only [emit_broadcasts, poll_broadcasts] at hbR
      cases succ with
      | true =>
        simp only [hR]
        refine ⟨[⟨"active_task_updated", toString t.id⟩] ++ newR, ?_, ?_, ?_⟩
        · rw [hbR]
          simp only [List.append_assoc]
        · intro _ m hm
          rcases List.mem_append.mp hm with h1 | h2
          · rw [List.mem_singleton.mp h1]
            simp
          · rw [htR m h2]
            decide
        · intro h
          exact absurd h (by simp)
      | false =>
        simp only [hR]
        by_cases hp2 : pollRunning env st2.pollIdx = true
        · rw [if_pos hp2]
          obtain ⟨⟨log2, msgs, crashed⟩, hS⟩ : ∃ p,
              runStrategicReplan (env.replanReply st2.replanIdx) t.id st2.poll.log = p :=
            ⟨_, rfl⟩
          have hMS := runStrategicReplan_types (env.replanReply st2.replanIdx) t.id st2.poll.log
          rw [hS] at hMS
          cases crashed with
          | true =>
            simp only [hS, eq_self_iff_true, if_true]
            refine ⟨[⟨"active_task_updated", toString t.id⟩] ++ newR
                ++ postChatMessage "Aura" "I\x27m stuck. Rethinking my approach." true
                ++ msgs ++ [⟨"mission_failure", ""⟩], ?_, ?_, ?_⟩
            · simp only [emit_broadcasts, nextReplan_broadcasts, withLog_broadcasts,
                poll_broadcasts]
              rw [hbR]
              simp only [List.append_assoc]
            · intro _ m hm
              rcases List.mem_append.mp hm with h1 | h2
              · rcases List.mem_append.mp h1 with h3 | h4
                · rcases List.mem_append.mp h3 with h5 | h6
                  · rcases List.mem_append.mp h5 with h7 | h8
                    · rw [List.mem_singleton.mp h7]
                      simp
                    · rw [htR m h8]
                      decide
                  · rcases postChatMessage_types "Aura" _ true m h6 with h | h <;>
                      (rw [h]; decide)
                · rcases hMS m h4 with h | h <;> (rw [h]; decide)
              · rw [List.mem_singleton.mp h2]
                decide
            · intro h
              exact MissionOutcome.noConfusion (Option.some.inj h)
          | false =>
            simp only [hS, Bool.false_eq_true, if_false]
            refine ⟨[⟨"active_task_updated", toString t.id⟩] ++ newR
                ++ postChatMessage "Aura" "I\x27m stuck. Rethinking my approach." true
                ++ msgs, ?_, ?_, ?_⟩
            · simp only [emit_broadcasts, nextReplan_broadcasts, withLog_broadcasts,
                poll_broadcasts]
              rw [hbR]
              simp only [List.append_assoc]
            · intro _ m hm
              rcases List.mem_append.mp hm with h1 | h2
              · rcases List.mem_append.mp h1 with h3 | h4
                · rcases List.mem_append.mp h3 with h5 | h6
                  · rw [List.mem_singleton.mp h5]
                    simp
                  · rw [htR m h6]
                    decide
                · rcases postChatMessage_types "Aura" _ true m h4 with h | h <;>
                    (rw [h]; decide)
              · rcases hMS m h2 with h | h <;> (rw [h]; decide)
            · intro h
              exact absurd h (by simp)
        · rw [if_neg hp2]
          refine ⟨[⟨"active_task_updated", toString t.id⟩] ++ newR, ?_, ?_, ?_⟩
          · simp only [poll_broadcasts]
            rw [hbR]
            simp only [List.append_assoc]
          · intro _ m hm
            rcases List.mem_append.mp hm with h1 | h2
            · rw [List.mem_singleton.mp h1]
              simp
            · rw [htR m h2]
              decide
          · intro h
            exact absurd h (by simp)
  · rw [if_neg hp]
    have hpc : postChatMessage "Conductor" "Mission execution halted by user." false
        = [⟨"system_log", "Mission execution halted by user."⟩] := by decide
    refine ⟨postChatMessage "Conductor" "Mission execution halted by user." false,
      rfl, ?_, ?_⟩
    · intro _ m hm
      rw [hpc] at hm
      rw [List.mem_singleton.mp hm]
      decide
    · intro _
      rw [hpc]
      exact List.mem_singleton.mpr rfl

lemma executeMissionLoop_halted (env : ConductorEnv) :
    ∀ (fuel : Nat) (st : CState),
      (executeMissionLoop env fuel st).2 = .halted →
      (∀ m ∈ (executeMissionLoop env fuel st).1.broadcasts,
        m.mtype = "mission_success" → m ∈ st.broadcasts) ∧
      Msg.mk "system_log" "Mission execution halted by user."
        ∈ (executeMissionLoop env fuel st).1.broadcasts := by
  intro fuel
  induction fuel with
  | zero =>
    intro st h
    exact MissionOutcome.noConfusion h
  | succ n ih =>
    intro st h
    obtain ⟨new, hb, hns, hh⟩ := conductorIteration_spec env st
    obtain ⟨⟨st1, out⟩, hC⟩ : ∃ p, conductorIteration env st = p := ⟨_, rfl⟩
    rw [hC] at hb hns hh
    rw [executeMissionLoop] at h ⊢
    simp only [hC] at h ⊢
    cases out with
    | some o =>
      have ho : o = .halted := h
      subst ho
      constructor
      · intro m hm hms
        rw [show (st1, some MissionOutcome.halted).1.broadcasts = st1.broadcasts from rfl,
          hb] at hm
        rcases List.mem_append.mp hm with h1 | h2
        · exact h1
        · exact absurd hms
            (hns (fun hc => MissionOutcome.noConfusion (Option.some.inj hc)) m h2)
      · rw [show (st1, some MissionOutcome.halted).1.broadcasts = st1.broadcasts from rfl, hb]
        exact List.mem_append_right _ (hh rfl)
    | none =>
      obtain ⟨ih1, ih2⟩ := ih st1 h
      constructor
      · intro m hm hms
        have hmem := ih1 m hm hms
        rw [show (st1, (none : Option MissionOutcome)).1.broadcasts = st1.broadcasts from rfl,
          hb] at hmem
        rcases List.mem_append.mp hmem with h1 | h2
        · exact h1
        · exact absurd hms (hns (by simp) m h2)
      · exact ih2

lemma executeMissionLoop_halts_now (env : ConductorEnv) (n : Nat) (fuel : Nat) (st : CState)
    (hs : env.stopAfter = some n) (hn : n ≤ st.pollIdx) (hf : 0 < fuel) :
    executeMissionLoop env fuel st
      = (st.poll.emit (postChatMessage "Conductor" "Mission execution halted by user." false),
        .halted) := by
  cases fuel with
  | zero => exact absurd hf (lt_irrefl 0)
  | succ k =>
    rw [executeMissionLoop, conductorIteration]
    have hp : pollRunning env st.pollIdx = false := by
      rw [pollRunning, hs]
      simp only [decide_eq_false_iff_not, Nat.not_lt]
      exact hn
    rw [if_neg (by rw [hp]; exact Bool.false_ne_true)]

/-- Claim C4: once a stop request is in effect (the is_mission_running
flag is off from poll index n on), the Conductor exits at the next poll:
the loop returns halted with the log untouched and only the halt
narration emitted, so no further task is started; whenever a run ends
halted, mission_success is never among the newly emitted broadcasts while
the halt narration is, and execute_mission_in_background always broadcasts
agent_status idle at the end. -/
theorem stop_request_halts_mission (env : ConductorEnv) (fuel : Nat) (st : CState)
    (log0 : MLState) (n : Nat) (hs : env.stopAfter = some n) :
    (n ≤ st.pollIdx → 0 < fuel →
      executeMissionLoop env fuel st
        = (st.poll.emit (postChatMessage "Conductor" "Mission execution halted by user." false),
          .halted) ∧
      (executeMissionLoop env fuel st).1.log = st.log ∧
      (executeMissionLoop env fuel st).1.attemptIdx = st.attemptIdx) ∧
    ((executeMissionLoop env fuel st).2 = .halted →
      (∀ m ∈ (executeMissionLoop env fuel st).1.broadcasts,
        m.mtype = "mission_success" → m ∈ st.broadcasts) ∧
      Msg.mk "system_log" "Mission execution halted by user."
        ∈ (executeMissionLoop env fuel st).1.broadcasts) ∧
    Msg.mk "agent_status" "idle" ∈ (executeMissionInBackground env fuel log0).1.broadcasts := by
  refine ⟨?_, fun h => executeMissionLoop_halted env fuel st h, ?_⟩
  · intro hn hf
    have he := executeMissionLoop_halts_now env n fuel st hs hn hf
    refine ⟨he, ?_, ?_⟩
    · rw [he]
      rfl
    · rw [he]
      rfl
  · show Msg.mk "agent_status" "idle"
      ∈ ((executeMission env fuel log0).1.emit [⟨"agent_status", "idle"⟩]).broadcasts
    simp only [emit_broadcasts]
    exact List.mem_append_right _ (List.mem_singleton.mpr rfl)

def cEnvHW : ConductorEnv := ⟨fun _ => .noCall, fun _ => ⟨"", none⟩, "", some 0⟩

def cStHW : CState := ⟨MLState.fresh, 0, 0, 0, []⟩

theorem stop_request_halts_mission_witness :
    executeMissionLoop cEnvHW 1 cStHW
      = (cStHW.poll.emit
          (postChatMessage "Conductor" "Mission execution halted by user." false),
        .halted) ∧
    Msg.mk "agent_status" "idle"
      ∈ (executeMissionInBackground cEnvHW 1 MLState.fresh).1.broadcasts := by
  have h := stop_request_halts_mission cEnvHW 1 cStHW MLState.fresh 0 rfl
  exact ⟨(h.1 (Nat.le_refl 0) (by decide)).1, h.2.2⟩

/-! ### Claim C2: the symbol index after rename_symbol

A miniature Python AST sufficient for the rename pipeline: names,
attribute accesses, calls, function/class definitions, from-imports and
expression statements.  Traversals carry a fuel argument so that they are
structurally recursive. -/

inductive PyExpr where
  | name (id : String)
  | attr (obj : PyExpr) (attrName : String)
  | call (f : PyExpr) (args : List PyExpr)

inductive PyStmt where
  | funcDef (nm : String) (args : List String) (body : List PyStmt)
  | classDef (nm : String) (body : List PyStmt)
  | importFrom (module : String) (names : List String)
  | exprStmt (e : PyExpr)

/-- CallVisitor: visit_Call records the callee's Name id or Attribute
attr, then generic_visit descends into the callee and the arguments. -/
def callsInExpr : Nat → PyExpr → List String
  | 0, _ => []
  | fuel + 1, e =>
    match e with
    | .name _ => []
    | .attr obj _ => callsInExpr fuel obj
    | .call f args =>
      (match f with
       | .name id => [id]
       | .attr _ a => [a]
       | _ => []) ++ callsInExpr fuel f ++ args.flatMap (callsInExpr fuel)

/-- CallVisitor over statements (generic_visit walks every child). -/
def callsInStmts : Nat → List PyStmt → List String
  | 0, _ => []
  | fuel + 1, ss =>
    ss.flatMap fun s =>
      match s with
      | .funcDef _ _ body => callsInStmts fuel body
      | .classDef _ body => callsInStmts fuel body
      | .importFrom _ _ => []
      | .exprStmt e => callsInExpr fuel e

/-- A defined symbol, as in CodeIntelligenceService.CodeSymbol (line
numbers are not tracked). -/
structure CodeSymbol where
  name : String
  filePath : String
  nodeType : String
  parentClass : Option String
  calls : List String
  deriving Repr, DecidableEq

/-- SymbolVisitor: top-level classes and functions; a function inside a
class becomes a method and is not recursed into; visiting a class sets
current_class for its body and resets it to None afterwards. -/
def symVisit (filePath : String) : Nat → List PyStmt → Option String → List CodeSymbol
  | 0, _, _ => []
  | _ + 1, [], _ => []
  | fuel + 1, s :: rest, cur =>
    match s with
    | .funcDef nm _ body =>
      ⟨nm, filePath, if cur.isSome then "method" else "function", cur,
        callsInStmts fuel body⟩ :: symVisit filePath fuel rest cur
    | .classDef nm body =>
      (⟨nm, filePath, "class", none, []⟩ :: symVisit filePath fuel body (some nm))
        ++ symVisit filePath fuel rest none
    | .importFrom _ _ => symVisit filePath fuel rest cur
    | .exprStmt _ => symVisit filePath fuel rest cur

def alistLookup {α : Type} (k : String) : List (String × α) → Option α
  | [] => none
  | (k2, v) :: rest => if k2 == k then some v else alistLookup k rest

def alistSet {α : Type} (k : String) (v : α) : List (String × α) → List (String × α)
  | [] => [(k, v)]
  | (k2, v2) :: rest => if k2 == k then (k2, v) :: rest else (k2, v2) :: alistSet k v rest

def alistDel {α : Type} (k : String) : List (String × α) → List (String × α)
  | [] => []
  | (k2, v2) :: rest => if k2 == k then rest else (k2, v2) :: alistDel k rest

/-- CodeIntelligenceService's two dictionaries (insertion-ordered). -/
structure SymbolIndex where
  symbolDefinitions : List (String × List CodeSymbol)
  fileToSymbols : List (String × List String)
  deriving Repr, DecidableEq

/-- The removal phase of update_index_for_file: for each symbol name
previously recorded for the file, drop entries whose file_path matches,
deleting the key if the list becomes empty. -/
def removeFileSymbols (path : String) (names : List String)
    (ds : List (String × List CodeSymbol)) : List (String × List CodeSymbol) :=
  names.foldl
    (fun ds nm =>
      match alistLookup nm ds with
      | none => ds
      | some syms =>
        let syms2 := syms.filter (fun s => s.filePath != path)
        if syms2.isEmpty then alistDel nm ds else alistSet nm syms2 ds)
    ds

/-- CodeIntelligenceService.update_index_for_file on an already parsed
module. -/
def updateIndexForFile (fuel : Nat) (idx : SymbolIndex) (path : String)
    (stmts : List PyStmt) : SymbolIndex :=
  let pr :=
    match alistLookup path idx.fileToSymbols with
    | some names =>
      (removeFileSymbols path names idx.symbolDefinitions, alistDel path idx.fileToSymbols)
    | none => (idx.symbolDefinitions, idx.fileToSymbols)
  let symbols := symVisit path fuel stmts none
  let defs2 := symbols.foldl
    (fun ds s =>
      match alistLookup s.name ds with
      | none => alistSet s.name [s] ds
      | some syms => alistSet s.name (syms ++ [s]) ds)
    pr.1
  let newNames := symbols.map (fun s => s.name)
  ⟨defs2, if newNames.isEmpty then pr.2 else alistSet path newNames pr.2⟩

/-- CodeIntelligenceService.find_symbol_definition. -/
def findSymbolDefinition (idx : SymbolIndex) (nm : String) : List CodeSymbol :=
  (alistLookup nm idx.symbolDefinitions).getD []

/-- CodeIntelligenceService.find_references. -/
def findReferences (idx : SymbolIndex) (nm : String) : List CodeSymbol :=
  idx.symbolDefinitions.flatMap (fun kv => kv.2.filter (fun s => s.calls.contains nm))

/-- RenameTransformer on expressions: visit_Name substitutes matching
ids; attribute names are not visited; calls recurse into callee and
arguments. -/
def renameExpr (oldName newName : String) : Nat → PyExpr → PyExpr
  | 0, e => e
  | fuel + 1, e =>
    match e with
    | .name id => .name (if id == oldName then newName else id)
    | .attr obj a => .attr (renameExpr oldName newName fuel obj) a
    | .call f args =>
      .call (renameExpr oldName newName fuel f) (args.map (renameExpr oldName newName fuel))

/-- RenameTransformer on statement lists: function, class and argument
names are renamed and bodies recursed into; from-import aliases have no
visitor and are left untouched. -/
def renameStmts (oldName newName : String) : Nat → List PyStmt → List PyStmt
  | 0, ss => ss
  | fuel + 1, ss =>
    ss.map fun s =>
      match s with
      | .funcDef nm args body =>
        .funcDef (if nm == oldName then newName else nm)
          (args.map fun a => if a == oldName then newName else a)
          (renameStmts oldName newName fuel body)
      | .classDef nm body =>
        .classDef (if nm == oldName then newName else nm)
          (renameStmts oldName newName fuel body)
      | .importFrom m ns => .importFrom m ns
      | .exprStmt e => .exprStmt (renameExpr oldName newName fuel e)

/-- The project files (relative path to parsed module) together with the
code-intelligence index. -/
structure RenameState where
  files : List (String × List PyStmt)
  index : SymbolIndex

/-- The per-file loop of rename_symbol: read, transform, write back; a
missing file aborts with the failure message, leaving earlier writes in
place. -/
def renameLoop (oldName newName : String) (fuel : Nat) :
    List String → List (String × List PyStmt) → List (String × List PyStmt) × Option String
  | [], files => (files, none)
  | p :: rest, files =>
    match alistLookup p files with
    | none => (files, some ("Failed to rename in file " ++ p ++ ": file not found"))
    | some mod =>
      renameLoop oldName newName fuel rest
        (alistSet p (renameStmts oldName newName fuel mod) files)

/-- code_intelligence_actions.rename_symbol: gather definition and
reference files from the index, rewrite each of them, and return.  The
index itself is never touched. -/
def renameSymbol (fuel : Nat) (st : RenameState) (oldName newName : String) :
    RenameState × String :=
  let definitions := findSymbolDefinition st.index oldName
  if definitions.isEmpty then
    (st, "Error: Cannot rename. Symbol \x27" ++ oldName
      ++ "\x27 not found in the project index.")
  else
    let references := findReferences st.index oldName
    let filesToModify := ((definitions ++ references).map (fun s => s.filePath)).dedup
    match renameLoop oldName newName fuel filesToModify st.files with
    | (files2, some msg) => (⟨files2, st.index⟩, msg)
    | (files2, none) =>
      (⟨files2, st.index⟩,
        "Successfully renamed \x27" ++ oldName ++ "\x27 to \x27" ++ newName
          ++ "\x27 across " ++ toString filesToModify.length ++ " files.")

def aModC2 : List PyStmt := [.funcDef "foo" [] [.exprStmt (.name "x")]]

def bModC2 : List PyStmt :=
  [.importFrom "a" ["foo"], .funcDef "use_foo" [] [.exprStmt (.call (.name "foo") [])]]

def idxC2 : SymbolIndex :=
  updateIndexForFile 9 (updateIndexForFile 9 ⟨[], []⟩ "a.py" aModC2) "b.py" bModC2

def stC2 : RenameState := ⟨[("a.py", aModC2), ("b.py", bModC2)], idxC2⟩

/-- Counterexample to claim C2: on a project where a.py defines foo once
and b.py imports and calls it, rename_symbol("foo", "bar") reports
success over both files, yet find_definition("foo") still returns the
stale entry and find_definition("bar") returns nothing; moreover b.py's
from-import still says foo while the call site now says bar. -/
theorem rename_symbol_index_counterexample :
    (renameSymbol 9 stC2 "foo" "bar").2
      = "Successfully renamed \x27foo\x27 to \x27bar\x27 across 2 files." ∧
    findSymbolDefinition (renameSymbol 9 stC2 "foo" "bar").1.index "foo" ≠ [] ∧
    findSymbolDefinition (renameSymbol 9 stC2 "foo" "bar").1.index "bar" = [] ∧
    alistLookup "b.py" (renameSymbol 9 stC2 "foo" "bar").1.files
      = some [.importFrom "a" ["foo"],
          .funcDef "use_foo" [] [.exprStmt (.call (.name "bar") [])]] := by
  exact ⟨by decide, by decide, by decide, rfl⟩

/-- Claim C2 (amended): rename_symbol rewrites matching name, function,
class and argument nodes in every file the index lists for the symbol,
but it never updates the symbol index: the index after the call is
identical to the one before (stale old-name entries survive, no new-name
entries appear), and from-import aliases are never renamed. -/
theorem rename_symbol_preserves_index (fuel : Nat) (st : RenameState)
    (oldName newName : String) :
    (renameSymbol fuel st oldName newName).1.index = st.index ∧
    (∀ m ns, renameStmts oldName newName fuel [.importFrom m ns] = [.importFrom m ns]) := by
  constructor
  · rw [renameSymbol]
    by_cases hE : (findSymbolDefinition st.index oldName).isEmpty = true
    · rw [if_pos hE]
    · rw [if_neg hE]
      obtain ⟨⟨files2, err⟩, hL⟩ : ∃ p, renameLoop oldName newName fuel
          ((((findSymbolDefinition st.index oldName)
              ++ findReferences st.index oldName).map (fun s => s.filePath)).dedup)
          st.files = p := ⟨_, rfl⟩
      cases err with
      | none =>
        simp only [hL]
      | some msg =>
        simp only [hL]
  · intro m ns
    cases fuel with
    | zero => rfl
    | succ k => rfl

end Aura
